import Mathlib

set_option maxRecDepth 8000

/-!
Verification of the apexJSON codec (Go) against its specification.

Bytes are modelled as `Nat` (values 0..255 in practice; no arithmetic
overflows the byte range in the modelled code).  Go slices of bytes are
`List Nat`; slice expressions `data[a:b]` become `(data.take b).drop a`.
Go loops are embedded with an explicit fuel argument; every loop in the
source advances the cursor by at least one byte per iteration (or one
recursion step), so a fuel of the input length plus a constant makes the
embedded function agree with the Go original on all inputs, and the
wrappers below instantiate the fuel that way.
-/

namespace ApexJSON

/-- isDigit (apexJSON.go): c is an ASCII decimal digit. -/
def isDigit (c : Nat) : Bool := decide (48 ≤ c ∧ c ≤ 57)

/-- isWhitespace (marshal helpers): space, tab, newline, carriage return. -/
def isWs (c : Nat) : Bool := decide (c = 32 ∨ c = 9 ∨ c = 10 ∨ c = 13)

/-- Parser state, from the `Parser` struct declaration in the
type-declarations document appended to src/go.mod (`data []byte` and
`pos int`, and nothing else); `NewParser` (apexJSON.go lines 109-114)
initializes exactly these two fields. -/
structure Parser where
  data : List Nat
  pos : Nat
deriving Repr, DecidableEq

/-- Peek: the byte at the cursor equals b (false at end of input). -/
def Parser.lookIs (p : Parser) (b : Nat) : Bool :=
  if h : p.pos < p.data.length then decide (p.data[p.pos] = b) else false

/-- Peek: the byte at the cursor is a digit (false at end of input). -/
def Parser.lookDigit (p : Parser) : Bool :=
  if h : p.pos < p.data.length then isDigit p.data[p.pos] else false

/-- Loop body of Parser.skipWhitespace (parser.go lines 7-16). -/
def skipWsAux : Nat → Parser → Parser
  | 0, p => p
  | fuel+1, p =>
    if h : p.pos < p.data.length then
      if isWs p.data[p.pos] then skipWsAux fuel { p with pos := p.pos + 1 }
      else p
    else p

/-- Parser.skipWhitespace (parser.go lines 7-16): advance the cursor past
whitespace bytes.  The loop advances one byte per iteration, so
`data.length - pos` fuel is exact. -/
def Parser.skipWhitespace (p : Parser) : Parser :=
  skipWsAux (p.data.length - p.pos) p

/-- Loop body of Parser.parseString (parser.go lines 26-36): scan forward
from inside the opening quote; a backslash skips two bytes, a quote closes
the string and returns the raw bytes strictly between the quotes
(`p.data[start+1 : p.pos-1]`), escapes are not decoded. -/
def parseStrAux : Nat → Nat → Parser → Option (List Nat) × Parser
  | 0, _, p => (none, p)
  | fuel+1, start, p =>
    if h : p.pos < p.data.length then
      if p.data[p.pos] = 92 then parseStrAux fuel start { p with pos := p.pos + 2 }
      else if p.data[p.pos] = 34 then
        let q : Parser := { p with pos := p.pos + 1 }
        (some ((q.data.take (q.pos - 1)).drop (start + 1)), q)
      else parseStrAux fuel start { p with pos := p.pos + 1 }
    else (none, p)

/-- Parser.parseString (parser.go lines 18-39).  `none` is TokenError.
Each loop iteration advances the cursor, so `data.length - pos` fuel is
sufficient (the loop exits as soon as the cursor passes the end). -/
def Parser.parseString (p : Parser) : Option (List Nat) × Parser :=
  if h : p.pos < p.data.length then
    if p.data[p.pos] = 34 then
      parseStrAux (p.data.length - p.pos) p.pos { p with pos := p.pos + 1 }
    else (none, p)
  else (none, p)

/-- Digit-run loops of Parser.parseNumber (parser.go lines 85-87, 99-101,
119-121). -/
def skipDigitsAux : Nat → Parser → Parser
  | 0, p => p
  | fuel+1, p =>
    if h : p.pos < p.data.length then
      if isDigit p.data[p.pos] then skipDigitsAux fuel { p with pos := p.pos + 1 }
      else p
    else p

/-- A maximal digit run, with exact fuel. -/
def Parser.skipDigits (p : Parser) : Parser :=
  skipDigitsAux (p.data.length - p.pos) p

/-- Exponent part of Parser.parseNumber (parser.go lines 104-124): optional
`e`/`E`, optional sign, at least one digit, then the maximal digit run;
finally the token `p.data[start:p.pos]` is returned. -/
def Parser.expTail (p : Parser) (start : Nat) : Option (List Nat) × Parser :=
  if p.lookIs 101 || p.lookIs 69 then
    let q : Parser := { p with pos := p.pos + 1 }
    let q : Parser := if q.lookIs 43 || q.lookIs 45 then { q with pos := q.pos + 1 } else q
    if q.lookDigit then
      let r := Parser.skipDigits { q with pos := q.pos + 1 }
      (some ((r.data.take r.pos).drop start), r)
    else (none, q)
  else (some ((p.data.take p.pos).drop start), p)

/-- Fractional part of Parser.parseNumber (parser.go lines 89-102):
optional `.` requiring at least one digit, then the maximal digit run,
then the exponent part. -/
def Parser.numTail (p : Parser) (start : Nat) : Option (List Nat) × Parser :=
  if p.lookIs 46 then
    let q : Parser := { p with pos := p.pos + 1 }
    if q.lookDigit then
      Parser.expTail (Parser.skipDigits { q with pos := q.pos + 1 }) start
    else (none, q)
  else Parser.expTail p start

/-- Parser.parseNumber (parser.go lines 68-125): optional `-`, at least one
digit (the first may be `0` and further digits may follow it), the maximal
digit run, optional fraction, optional exponent.  `none` is TokenError; on
failure the cursor stays where the scan stopped, as in the source. -/
def Parser.parseNumber (p0 : Parser) : Option (List Nat) × Parser :=
  let start := p0.pos
  let p : Parser := if p0.lookIs 45 then { p0 with pos := p0.pos + 1 } else p0
  if p.lookDigit then Parser.numTail (Parser.skipDigits { p with pos := p.pos + 1 }) start
  else (none, p)

/-- Parser.matchLiteral (parser.go lines 127-140): succeed and advance by
`lit.length` exactly when the next bytes equal `lit`; the byte-by-byte
comparison loop is extensionally the slice equality used here. -/
def Parser.matchLiteral (p : Parser) (lit : List Nat) : Bool × Parser :=
  if p.data.length < p.pos + lit.length then (false, p)
  else if (p.data.drop p.pos).take lit.length = lit then
    (true, { p with pos := p.pos + lit.length })
  else (false, p)

def litTrue : List Nat := [116, 114, 117, 101]

def litFalse : List Nat := [102, 97, 108, 115, 101]

def litNull : List Nat := [110, 117, 108, 108]

mutual

/-- skipValue (parser.go lines 142-231): skip whitespace, dispatch on the
first byte; objects and arrays enter their respective loops.  One fuel unit
is consumed per entry; along any call chain the cursor strictly advances at
least every second step, so `2 * data.length + 2` fuel (used by the
wrapper) reproduces the Go recursion on every input. -/
def skipValueAux : Nat → Parser → Bool × Parser
  | 0, p => (false, p)
  | fuel+1, p0 =>
    let p := p0.skipWhitespace
    if h : p.pos < p.data.length then
      if p.data[p.pos] = 123 then skipObjLoop fuel { p with pos := p.pos + 1 }
      else if p.data[p.pos] = 91 then skipArrLoop fuel { p with pos := p.pos + 1 }
      else if p.data[p.pos] = 34 then
        match p.parseString with
        | (some _, q) => (true, q)
        | (none, q) => (false, q)
      else if p.data[p.pos] = 116 then p.matchLiteral litTrue
      else if p.data[p.pos] = 102 then p.matchLiteral litFalse
      else if p.data[p.pos] = 110 then p.matchLiteral litNull
      else if p.data[p.pos] = 45 || isDigit p.data[p.pos] then
        match p.parseNumber with
        | (some _, q) => (true, q)
        | (none, q) => (false, q)
      else (false, p)
    else (false, p)

/-- Object loop of skipValue (parser.go lines 150-185): `}` closes, `,` is
skipped, otherwise a string key, a colon and a value are consumed. -/
def skipObjLoop : Nat → Parser → Bool × Parser
  | 0, p => (false, p)
  | fuel+1, p0 =>
    let p := p0.skipWhitespace
    if h : p.pos < p.data.length then
      if p.data[p.pos] = 125 then (true, { p with pos := p.pos + 1 })
      else if p.data[p.pos] = 44 then skipObjLoop fuel { p with pos := p.pos + 1 }
      else
        match p.parseString with
        | (none, q) => (false, q)
        | (some _, q0) =>
          let q := q0.skipWhitespace
          if h2 : q.pos < q.data.length then
            if q.data[q.pos] = 58 then
              match skipValueAux fuel { q with pos := q.pos + 1 } with
              | (true, r) => skipObjLoop fuel r
              | (false, r) => (false, r)
            else (false, q)
          else (false, q)
    else (false, p)

/-- Array loop of skipValue (parser.go lines 187-209): `]` closes, `,` is
skipped, otherwise a value is consumed. -/
def skipArrLoop : Nat → Parser → Bool × Parser
  | 0, p => (false, p)
  | fuel+1, p0 =>
    let p := p0.skipWhitespace
    if h : p.pos < p.data.length then
      if p.data[p.pos] = 93 then (true, { p with pos := p.pos + 1 })
      else if p.data[p.pos] = 44 then skipArrLoop fuel { p with pos := p.pos + 1 }
      else
        match skipValueAux fuel p with
        | (true, r) => skipArrLoop fuel r
        | (false, r) => (false, r)
    else (false, p)

end

/-- skipValue with the fuel that reproduces the unbounded Go recursion on
every input (see skipValueAux). -/
def skipValue (p : Parser) : Bool × Parser :=
  skipValueAux (2 * p.data.length + 2) p

/-- Parser.ExtractBool (parser.go lines 249-267).  First component: the
extracted boolean; second: the ok flag. -/
def Parser.ExtractBool (p0 : Parser) : (Bool × Bool) × Parser :=
  let p := p0.skipWhitespace
  if h : p.pos < p.data.length then
    if p.data[p.pos] = 116 then
      match p.matchLiteral litTrue with
      | (true, q) => ((true, true), q)
      | (false, q) => ((false, false), q)
    else if p.data[p.pos] = 102 then
      match p.matchLiteral litFalse with
      | (true, q) => ((false, true), q)
      | (false, q) => ((false, false), q)
    else ((false, false), p)
  else ((false, false), p)

/-- Parser.ExtractNumber (parser.go lines 234-246): parseNumber, then
`strconv.ParseFloat` on the token.  The float conversion receives only the
token bytes and cannot touch the parser, so it is modelled by an arbitrary
success predicate `pf` on the token (the theorems below hold for every
`pf`, hence for the real ParseFloat); the numeric value itself is not
needed by any claim about this function. -/
def Parser.ExtractNumber (pf : List Nat → Bool) (p : Parser) : Bool × Parser :=
  match p.parseNumber with
  | (none, q) => (false, q)
  | (some tok, q) => (pf tok, q)

/-- Scan loop of Parser.ExtractString (parser.go lines 279-297). -/
def extractStrAux : Nat → Nat → Parser → Option (List Nat) × Parser
  | 0, _, p => (none, p)
  | fuel+1, start, p =>
    if h : p.pos < p.data.length then
      if p.data[p.pos] = 92 then
        Parser.parseString { p with pos := start }
      else if p.data[p.pos] = 34 then
        let s := (p.data.take p.pos).drop (start + 1)
        (some s, { p with pos := p.pos + 1 })
      else extractStrAux fuel start { p with pos := p.pos + 1 }
    else (none, { p with pos := start })

/-- Parser.ExtractString (parser.go lines 270-302): fast path slicing the
unescaped content; on a backslash the cursor is reset to the start and
parseString is re-run; on a missing closing quote the cursor is reset to
the start.  The Go code indexes `p.data[p.pos]` without a bounds check and
would panic at end of input (no in-repo caller reaches that state); the
embedding returns failure without moving in that case. -/
def Parser.ExtractString (p : Parser) : Option (List Nat) × Parser :=
  if h : p.pos < p.data.length then
    if p.data[p.pos] = 34 then
      extractStrAux (p.data.length - p.pos) p.pos { p with pos := p.pos + 1 }
    else (none, p)
  else (none, p)

/-- Inner key loop of Extract (apexJSON.go lines 648-721) for one path
segment: find the segment key in the object at the cursor; `some q`
positions the cursor just after the matching key's colon, `none` is the
key-not-found / syntax-error result (both yield found = false).  Each
iteration consumes at least the two key quotes, so `data.length + 1` fuel
(used by the caller) reproduces the Go loop. -/
def extractSegLoop : Nat → Parser → List Nat → Option Parser
  | 0, _, _ => none
  | fuel+1, p0, seg =>
    let p := p0.skipWhitespace
    if h : p.pos < p.data.length then
      if p.data[p.pos] = 125 then none
      else
        match p.parseString with
        | (none, _) => none
        | (some key, q0) =>
          let q := q0.skipWhitespace
          if h2 : q.pos < q.data.length then
            if q.data[q.pos] = 58 then
              let q2 : Parser := { q with pos := q.pos + 1 }
              if key = seg then some q2
              else
                match skipValue q2 with
                | (false, _) => none
                | (true, r0) =>
                  let r := r0.skipWhitespace
                  if h3 : r.pos < r.data.length then
                    if r.data[r.pos] = 125 then none
                    else if r.data[r.pos] = 44 then
                      extractSegLoop fuel { r with pos := r.pos + 1 } seg
                    else none
                  else none
            else none
          else none
    else none

/-- Segment loop of Extract (apexJSON.go lines 630-742): each segment
requires an object, finds the key, and either extracts the value (last
segment) or descends. -/
def extractSegs : Parser → List (List Nat) → Option (List Nat)
  | _, [] => none
  | p0, seg :: rest =>
    let p := p0.skipWhitespace
    if h : p.pos < p.data.length then
      if p.data[p.pos] = 123 then
        match extractSegLoop (p.data.length + 1) { p with pos := p.pos + 1 } seg with
        | none => none
        | some q0 =>
          if rest = [] then
            let q := q0.skipWhitespace
            let start := q.pos
            match skipValue q with
            | (false, _) => none
            | (true, r) => some ((r.data.take r.pos).drop start)
          else extractSegs q0 rest
      else none
    else none

/-- Extract (apexJSON.go lines 611-745).  `some v` is `(v, true)`, `none`
is `(nil, false)`; the source never returns a non-nil slice with false.
With zero path segments the input slice itself is returned immediately
(line 612), before any parser is even constructed. -/
def Extract (data : List Nat) (path : List (List Nat)) : Option (List Nat) :=
  if path = [] then some data
  else extractSegs (Parser.mk data 0).skipWhitespace path

/-- Pooled byte buffer (Buffer struct: fields buf and off).  A Go slice is
a view of a backing array: `arr` is the backing array (its length is the
Go capacity `cap(b.buf)`), `len` is the Go slice length `len(b.buf)`, and
`off` is the write offset field. -/
structure Buffer where
  arr : List Nat
  len : Nat
  off : Nat
deriving Repr, DecidableEq

/-- Effect on the backing array of `copy` into the view starting at index
i: the bytes `xs` overwrite positions `[i, i + xs.length)`.  Callers pass
`xs` already truncated to the copy count. -/
def listCopyAt (arr : List Nat) (i : Nat) (xs : List Nat) : List Nat :=
  arr.take i ++ xs ++ arr.drop (i + xs.length)

/-- `for newCap < needed: newCap <<= 1` (Buffer.grow, zero-capacity
branch).  Doubling from 64 reaches `needed` within `needed` iterations,
so that fuel reproduces the unbounded Go loop. -/
def doubleUntil : Nat → Nat → Nat → Nat
  | 0, cur, _ => cur
  | fuel+1, cur, needed => if cur < needed then doubleUntil fuel (cur * 2) needed else cur

/-- One bit-smearing step `n |= n >> k`. -/
def orShift (m k : Nat) : Nat := m ||| (m >>> k)

/-- `n--; n |= n>>1; n |= n>>2; n |= n>>4; n |= n>>8; n++`
(Buffer.grow, small-capacity branch); each `|=` sees the updated value. -/
def roundPow2Small (n0 : Nat) : Nat :=
  orShift (orShift (orShift (orShift (n0 - 1) 1) 2) 4) 8 + 1

/-- The same rounding with the additional `n |= n>>16` step
(getBufferSize, large-size branch). -/
def roundPow2Large (n0 : Nat) : Nat :=
  orShift (orShift (orShift (orShift (orShift (n0 - 1) 1) 2) 4) 8) 16 + 1

/-- Buffer.grow (pool/buffer file lines 347-392): if `off + n` fits the
capacity, the slice length is set to `off + n` in place; otherwise a new
backing array of the computed capacity is allocated, the first `off`
bytes are copied over (`copy(newBuf, b.buf[:b.off])`) and the rest is
zero.  The Go code would panic when `off > len(b.buf)` (slicing past the
length); the embedding truncates instead, and all theorems that depend on
the copied content carry `off ≤ len` as a hypothesis. -/
def Buffer.grow (b : Buffer) (n : Nat) : Buffer :=
  let needed := b.off + n
  if needed ≤ b.arr.length then { b with len := needed }
  else
    let curCap := b.arr.length
    let newCap :=
      if curCap = 0 then doubleUntil needed 64 needed
      else if curCap < 512 then roundPow2Small (max (curCap * 4) needed)
      else if curCap < 8192 then max (curCap * 2) needed
      else max (curCap + curCap / 2) needed
    let newCap := if 33554432 < newCap ∧ needed ≤ 33554432 then 33554432 else newCap
    { arr := b.arr.take b.off ++ List.replicate (newCap - b.off) 0,
      len := needed, off := b.off }

/-- Buffer.Write (lines 307-310): grow by `len(p)`, then
`copy(b.buf[b.off:], p)`; the offset field is left unchanged and the copy
count is returned (the error is always nil). -/
def Buffer.Write (b0 : Buffer) (p : List Nat) : Nat × Buffer :=
  let b := b0.grow p.length
  let n := min (b.len - b.off) p.length
  (n, { b with arr := listCopyAt b.arr b.off (p.take n) })

/-- Buffer.WriteByte (lines 312-317): grow by one, store the byte at the
offset, advance the offset. -/
def Buffer.WriteByte (b0 : Buffer) (c : Nat) : Buffer :=
  let b := b0.grow 1
  { b with arr := b.arr.set b.off c, off := b.off + 1 }

/-- Buffer.WriteString (lines 467-477): grow only when `off + len(s)`
exceeds the capacity, then `n := copy(b.buf[b.off:], s)` and advance the
offset by n. -/
def Buffer.WriteString (b0 : Buffer) (s : List Nat) : Nat × Buffer :=
  let b := if b0.arr.length < b0.off + s.length then b0.grow s.length else b0
  let n := min (b.len - b.off) s.length
  (n, { b with arr := listCopyAt b.arr b.off (s.take n), off := b.off + n })

/-- Buffer.Reset (lines 394-397). -/
def Buffer.Reset (b : Buffer) : Buffer := { b with len := 0, off := 0 }

/-- `buf.off += copy(buf.buf[buf.off:], chunk)`, the write step used by
the escaping writers: copy into the view `[off, len)` (the count is
limited by the slice length) and advance the offset by the count. -/
def Buffer.writeChunk (b : Buffer) (chunk : List Nat) : Buffer :=
  let n := min (b.len - b.off) chunk.length
  { b with arr := listCopyAt b.arr b.off (chunk.take n), off := b.off + n }

/-- escapeMap (apexJSON.go lines 61-67): the only non-nil entries of the
256-entry table.  92 117 ... (a `\u00XX` form) appears nowhere. -/
def escapeMap (c : Nat) : Option (List Nat) :=
  if c = 34 then some [92, 34]
  else if c = 92 then some [92, 92]
  else if c = 10 then some [92, 110]
  else if c = 13 then some [92, 114]
  else if c = 9 then some [92, 116]
  else none

/-- Scan loop of writeEscapedStringString (apexJSON.go lines 1924-1935),
Buffer fast path: `i` scans s; at a byte with an escapeMap entry the
pending run `s[start:i]` and then the escape bytes are copied and `start`
moves past the byte; the final `start` is returned for the tail write.
One byte per iteration: fuel `s.length` is exact. -/
def wessLoop (s : List Nat) : Nat → Nat → Nat → Buffer → Buffer × Nat
  | 0, _, start, b => (b, start)
  | fuel+1, i, start, b =>
    if h : i < s.length then
      match escapeMap s[i] with
      | some esc =>
        let b := if start < i then b.writeChunk ((s.take i).drop start) else b
        let b := b.writeChunk esc
        wessLoop s fuel (i+1) (i+1) b
      | none => wessLoop s fuel (i+1) start b
    else (b, start)

/-- writeEscapedStringString (apexJSON.go lines 1917-1947), Buffer fast
path: pre-grow by `len(s) + 16`, run the scan loop, then copy the final
unescaped run `s[start:]`. -/
def writeEscapedStringString (b0 : Buffer) (s : List Nat) : Buffer :=
  let b := b0.grow (s.length + 16)
  let r := wessLoop s s.length 0 0 b
  if r.2 < s.length then r.1.writeChunk (s.drop r.2) else r.1

/-- A fresh pool buffer: `make([]byte, 0, c)`. -/
def newBuf (c : Nat) : Buffer := { arr := List.replicate c 0, len := 0, off := 0 }

/-- The four size-classed buffer pools, modelled as lists of pooled
buffers; `sync.Pool.Get` hands back some pooled element, or the bucket's
New buffer when the pool is empty.  The list-head model resolves the
nondeterminism one way; the code_bug evaluation below uses the empty pool,
whose behavior (`Get` returns New) is fixed by the source. -/
structure Pools where
  tiny : List Buffer
  small : List Buffer
  medium : List Buffer
  large : List Buffer
deriving Repr

def emptyPools : Pools := ⟨[], [], [], []⟩

/-- sync.Pool.Get in the list model: head of the pool, or the New buffer
of the given capacity. -/
def poolGet : List Buffer → Nat → Buffer × List Buffer
  | [], c => (newBuf c, [])
  | b :: rest, _ => (b, rest)

/-- getBufferSize (pool/buffer file lines 131-171): bucket dispatch on the
size hint (tiny ≤ 64, small ≤ 256, medium ≤ 4096 with New capacity 1024,
else round up to a power of two; above 64 KiB allocate fresh, rounded up
to a 4 KiB page — `(s+4095) &^ 4095` clears the low 12 bits — otherwise
take from the large pool replacing a too-small backing array); finally
the slice length and the offset are reset to zero. -/
def getBufferSize (sizeHint : Nat) (ps : Pools) : Buffer × Pools :=
  let pick : Buffer × Pools :=
    if sizeHint ≤ 64 then
      let g := poolGet ps.tiny 64
      (g.1, { ps with tiny := g.2 })
    else if sizeHint ≤ 256 then
      let g := poolGet ps.small 256
      (g.1, { ps with small := g.2 })
    else if sizeHint ≤ 4096 then
      let g := poolGet ps.medium 1024
      (g.1, { ps with medium := g.2 })
    else
      let s := roundPow2Large sizeHint
      if 65536 < s then
        (newBuf (((s + 4095) / 4096) * 4096), ps)
      else
        let g := poolGet ps.large 4096
        let b := g.1
        let b := if b.arr.length < s then { b with arr := List.replicate s 0, len := 0 } else b
        (b, { ps with large := g.2 })
  ({ pick.1 with len := 0, off := 0 }, pick.2)

/-- getBuffer (lines 126-128): the default 256-byte hint. -/
def getBuffer (ps : Pools) : Buffer × Pools := getBufferSize 256 ps

/-- putBuffer (lines 174-191): a no-op when the capacity exceeds 64 KiB;
otherwise Reset the buffer and return it to the bucket matching its
capacity (`sync.Pool.Put` modelled as consing onto the pool list). -/
def putBuffer (ps : Pools) (b0 : Buffer) : Pools :=
  if 65536 < b0.arr.length then ps
  else
    let b := b0.Reset
    if b.arr.length ≤ 64 then { ps with tiny := b :: ps.tiny }
    else if b.arr.length ≤ 256 then { ps with small := b :: ps.small }
    else if b.arr.length ≤ 4096 then { ps with medium := b :: ps.medium }
    else { ps with large := b :: ps.large }

/-- The byte emission of Marshal for a Go string value s (Marshal,
apexJSON.go lines 90-102, with the reflect.String case of marshalValue,
marshal_unmarshal.go lines 34-38): acquire the default buffer (with empty
pools this is the small bucket's fresh 256-capacity buffer), write a
quote, the escaped bytes, a quote; the result is the copy
`buf.buf[:buf.off]`. -/
def marshalStringGo (s : List Nat) : List Nat :=
  let b := (getBuffer emptyPools).1
  let b := b.WriteByte 34
  let b := writeEscapedStringString b s
  let b := b.WriteByte 34
  b.arr.take b.off

/-- Destination kinds for the scalar-relevant part of unmarshalValue.
`rInt` stands for the 64-bit signed integer kinds, `rIface` for the empty
interface. -/
inductive RKind
  | rPtr
  | rMap
  | rSlice
  | rIface
  | rInt
  | rBool
  | rString
deriving Repr, DecidableEq

/-- Abstract record of the assignment performed by the set* helpers on
the destination: which variant was stored, with the raw payload the
source stores (`vstr` keeps the undecoded bytes parseString returned;
`vfloat` keeps the token handed to strconv.ParseFloat). -/
inductive GoVal
  | vnull
  | vbool (b : Bool)
  | vstr (raw : List Nat)
  | vint (n : Int)
  | vfloat (tok : List Nat)
deriving Repr, DecidableEq

/-- Unmarshal errors: SyntaxError carries offset and message;
UnmarshalTypeError carries the value description (the source appends the
offending token text to "number", which is summarized here) and the
destination kind. -/
inductive UErr
  | syntaxErr (off : Nat) (msg : String)
  | typeErr (val : String) (k : RKind)
deriving Repr, DecidableEq

instance : DecidableEq (Except UErr GoVal) := fun x y =>
  match x, y with
  | Except.ok a, Except.ok b =>
    if h : a = b then isTrue (by rw [h]) else isFalse (by simp [h])
  | Except.error a, Except.error b =>
    if h : a = b then isTrue (by rw [h]) else isFalse (by simp [h])
  | Except.ok _, Except.error _ => isFalse (by simp)
  | Except.error _, Except.ok _ => isFalse (by simp)

/-- setNull (marshal_unmarshal.go lines 1115-1123): interface, pointer,
map and slice destinations are set to their zero value; every other kind
is an UnmarshalTypeError with value "null". -/
def setNull : RKind → Except UErr GoVal
  | RKind.rIface => Except.ok GoVal.vnull
  | RKind.rPtr => Except.ok GoVal.vnull
  | RKind.rMap => Except.ok GoVal.vnull
  | RKind.rSlice => Except.ok GoVal.vnull
  | k => Except.error (UErr.typeErr "null" k)

/-- setBool (lines 1126-1139): bool and empty-interface destinations
accept; otherwise a type error. -/
def setBool (k : RKind) (v : Bool) : Except UErr GoVal :=
  match k with
  | RKind.rBool => Except.ok (GoVal.vbool v)
  | RKind.rIface => Except.ok (GoVal.vbool v)
  | _ => Except.error (UErr.typeErr "bool" k)

/-- setString (lines 1142-1155): string and empty-interface destinations
receive the raw bytes; otherwise a type error. -/
def setString (k : RKind) (raw : List Nat) : Except UErr GoVal :=
  match k with
  | RKind.rString => Except.ok (GoVal.vstr raw)
  | RKind.rIface => Except.ok (GoVal.vstr raw)
  | _ => Except.error (UErr.typeErr "string" k)

/-- strconv.ParseInt(s, 10, 64) as used by setNumber: optional sign, one
or more decimal digits, magnitude within the int64 range (out of range is
an error for the caller). -/
def parseIntGo (s : List Nat) : Option Int :=
  let signed : Bool × List Nat :=
    match s with
    | 45 :: rest => (true, rest)
    | 43 :: rest => (false, rest)
    | _ => (false, s)
  let ds := signed.2
  if ds = [] then none
  else if ds.all (fun c => isDigit c) then
    let v : Nat := ds.foldl (fun a c => a * 10 + (c - 48)) 0
    if signed.1 then
      if v ≤ 9223372036854775808 then some (-(v : Int)) else none
    else
      if v ≤ 9223372036854775807 then some (v : Int) else none
  else none

/-- setNumber (lines 1158-1220) for the modelled kinds.  `pf` is the
strconv.ParseFloat success predicate for the empty-interface branch (the
float conversion sees only the token bytes; every theorem below holds for
each choice of `pf`). -/
def setNumber (pf : List Nat → Bool) (k : RKind) (s : List Nat) : Except UErr GoVal :=
  match k with
  | RKind.rInt =>
    match parseIntGo s with
    | some n => Except.ok (GoVal.vint n)
    | none => Except.error (UErr.typeErr "number" RKind.rInt)
  | RKind.rIface =>
    if pf s then Except.ok (GoVal.vfloat s) else Except.error (UErr.typeErr "number" RKind.rIface)
  | _ => Except.error (UErr.typeErr "number" k)

/-- unmarshalValue (marshal_unmarshal.go lines 822-871) over the modelled
destination kinds, for destinations without a custom Unmarshaler.  The
`{` branch with a map destination and the `[` branch with a slice
destination recurse into the container parsers, which no claim here
exercises, so those two combinations return `none` (outside the model);
every other combination is fully embedded.  Note that the `n`, `t` and
`f` branches advance the cursor by a fixed count (4, 4, 5) without
checking any of the skipped bytes. -/
def unmarshalValueGo (pf : List Nat → Bool) (p0 : Parser) (k : RKind) :
    Option (Except UErr GoVal × Parser) :=
  let p := p0.skipWhitespace
  if h : p.pos < p.data.length then
    if p.data[p.pos] = 110 then some (setNull k, { p with pos := p.pos + 4 })
    else if p.data[p.pos] = 116 then some (setBool k true, { p with pos := p.pos + 4 })
    else if p.data[p.pos] = 102 then some (setBool k false, { p with pos := p.pos + 5 })
    else if p.data[p.pos] = 34 then
      match p.parseString with
      | (some v, q) => some (setString k v, q)
      | (none, q) => some (Except.error (UErr.syntaxErr q.pos "invalid string"), q)
    else if p.data[p.pos] = 123 then
      match k with
      | RKind.rMap => none
      | _ => some (Except.error (UErr.syntaxErr p.pos "invalid JSON value"), p)
    else if p.data[p.pos] = 91 then
      match k with
      | RKind.rSlice => none
      | _ => some (Except.error (UErr.syntaxErr p.pos "invalid JSON value"), p)
    else if p.data[p.pos] = 45 || isDigit p.data[p.pos] then
      match p.parseNumber with
      | (some tok, q) => some (setNumber pf k tok, q)
      | (none, q) => some (Except.error (UErr.syntaxErr q.pos "invalid number"), q)
    else some (Except.error (UErr.syntaxErr p.pos "invalid JSON value"), p)
  else some (Except.error (UErr.syntaxErr p.pos "unexpected end of JSON input"), p)

/-- Unmarshal (apexJSON.go lines 103-107) over the modelled kinds:
NewParser over the bytes, then unmarshalValue. -/
def UnmarshalGo (pf : List Nat → Bool) (data : List Nat) (k : RKind) :
    Option (Except UErr GoVal × Parser) :=
  unmarshalValueGo pf (Parser.mk data 0) k

/-- All bytes of l are ASCII digits. -/
def allDigits (l : List Nat) : Bool := l.all (fun c => isDigit c)

/-- Declarative shape of a number literal in the grammar that parseNumber
accepts (the RFC 8259 grammar with the leading-zero restriction dropped):
optional minus, a nonempty digit run, an optional fraction `.` digits, an
optional exponent with marker `e` or `E`, optional sign byte and a
nonempty digit run. -/
structure NumLit where
  neg : Bool
  intDigits : List Nat
  frac : Option (List Nat)
  exps : Option (Nat × Option Nat × List Nat)
deriving Repr, DecidableEq

/-- Well-formedness of the optional fraction part. -/
def fracWfB : Option (List Nat) → Bool
  | none => true
  | some fr => decide (fr ≠ []) && allDigits fr

/-- Well-formedness of the optional exponent part. -/
def expWfB : Option (Nat × Option Nat × List Nat) → Bool
  | none => true
  | some (mark, sgn, ds) =>
    decide (mark = 101 ∨ mark = 69) &&
    (match sgn with
     | none => true
     | some s => decide (s = 43 ∨ s = 45)) &&
    decide (ds ≠ []) && allDigits ds

/-- Well-formedness of a NumLit shape, decidably. -/
def NumLit.wfB (nl : NumLit) : Bool :=
  decide (nl.intDigits ≠ []) && allDigits nl.intDigits &&
  fracWfB nl.frac && expWfB nl.exps

/-- Bytes of the optional fraction part. -/
def fracRender : Option (List Nat) → List Nat
  | none => []
  | some fr => 46 :: fr

/-- Bytes of the optional exponent part. -/
def expRender : Option (Nat × Option Nat × List Nat) → List Nat
  | none => []
  | some (mark, sgn, ds) =>
    mark :: ((match sgn with | none => [] | some s => [s]) ++ ds)

/-- The byte rendering of a NumLit shape. -/
def NumLit.render (nl : NumLit) : List Nat :=
  (if nl.neg then [45] else []) ++ nl.intDigits ++ fracRender nl.frac ++ expRender nl.exps

/-- The bytes `seg` occupy positions `[pos, pos + seg.length)` of data. -/
def SegAt (data : List Nat) (pos : Nat) (seg : List Nat) : Prop :=
  (data.drop pos).take seg.length = seg

instance (data : List Nat) (pos : Nat) (seg : List Nat) : Decidable (SegAt data pos seg) :=
  inferInstanceAs (Decidable (_ = _))

/-- The input at index i cannot extend a digit run: end of input or a
non-digit byte. -/
def stopDigit (data : List Nat) (i : Nat) : Bool :=
  match data[i]? with
  | none => true
  | some c => !isDigit c

/-- The remainder of the input at index i does not begin with a byte that
could extend a number token: a digit, `.`, `e` or `E` (the standard JSON
delimiters comma, closing brackets, whitespace, and end of input all
qualify). -/
def numDelim (data : List Nat) (i : Nat) : Bool :=
  match data[i]? with
  | none => true
  | some c => !(isDigit c || decide (c = 46) || decide (c = 101) || decide (c = 69))

/-- Well-formedness of an escaped string body as parseString scans it: a
backslash always carries a following byte (which is then skipped blindly),
and an unescaped byte is neither a quote nor a backslash. -/
def strBody : List Nat → Bool
  | [] => true
  | 92 :: _ :: rest => strBody rest
  | c :: rest => decide (¬ (c = 34 ∨ c = 92)) && strBody rest

/-- A JSON value shape for claims about skipValue: number literals as
NumLit shapes, strings as their raw (still escaped) body bytes, arrays and
objects as lists of children. -/
inductive JVal where
  | jnull : JVal
  | jtrue : JVal
  | jfalse : JVal
  | jnum : NumLit → JVal
  | jstr : List Nat → JVal
  | jarr : List JVal → JVal
  | jobj : List (List Nat × JVal) → JVal

mutual

/-- Well-formedness of a JVal: number shapes satisfy the number grammar,
string bodies are well-formed escaped content, children are well-formed. -/
def JVal.wf : JVal → Bool
  | JVal.jnull => true
  | JVal.jtrue => true
  | JVal.jfalse => true
  | JVal.jnum nl => nl.wfB
  | JVal.jstr body => strBody body
  | JVal.jarr es => elemsWf es
  | JVal.jobj fs => fieldsWf fs

/-- All array elements well-formed. -/
def elemsWf : List JVal → Bool
  | [] => true
  | v :: vs => JVal.wf v && elemsWf vs

/-- All object fields well-formed: key a well-formed string body, value
well-formed. -/
def fieldsWf : List (List Nat × JVal) → Bool
  | [] => true
  | (k, v) :: fs => strBody k && JVal.wf v && fieldsWf fs

end

mutual

/-- The byte rendering of a JVal, with no optional whitespace. -/
def JVal.render : JVal → List Nat
  | JVal.jnull => litNull
  | JVal.jtrue => litTrue
  | JVal.jfalse => litFalse
  | JVal.jnum nl => nl.render
  | JVal.jstr body => 34 :: (body ++ [34])
  | JVal.jarr es => 91 :: (renderElems es ++ [93])
  | JVal.jobj fs => 123 :: (renderFields fs ++ [125])

/-- Array contents: first element unprefixed, later ones comma-prefixed. -/
def renderElems : List JVal → List Nat
  | [] => []
  | v :: vs => JVal.render v ++ renderRestElems vs

/-- Comma-prefixed later array elements. -/
def renderRestElems : List JVal → List Nat
  | [] => []
  | v :: vs => 44 :: (JVal.render v ++ renderRestElems vs)

/-- Object contents: first field unprefixed, later ones comma-prefixed. -/
def renderFields : List (List Nat × JVal) → List Nat
  | [] => []
  | f :: fs => renderField f ++ renderRestFields fs

/-- Comma-prefixed later object fields. -/
def renderRestFields : List (List Nat × JVal) → List Nat
  | [] => []
  | f :: fs => 44 :: (renderField f ++ renderRestFields fs)

/-- One object field: quoted key, colon, value. -/
def renderField : List Nat × JVal → List Nat
  | (k, v) => (34 :: (k ++ [34])) ++ (58 :: JVal.render v)

end

/-- Statement bundle for the skipValue induction: a well-formed value
rendering at the cursor is skipped in full (the number-boundary hypothesis
applies only to bare number values). -/
abbrev SVal (fuel : Nat) : Prop :=
  ∀ (v : JVal) (data : List Nat) (pos : Nat), JVal.wf v = true →
    SegAt data pos (JVal.render v) →
    (∀ nl, v = JVal.jnum nl → numDelim data (pos + (JVal.render v).length) = true) →
    (JVal.render v).length ≤ fuel →
    skipValueAux fuel (Parser.mk data pos) = (true, Parser.mk data (pos + (JVal.render v).length))

/-- Statement bundle: the array loop at an element-or-close position. -/
abbrev SArrE (fuel : Nat) : Prop :=
  ∀ (es : List JVal) (data : List Nat) (pos : Nat), elemsWf es = true →
    SegAt data pos (renderElems es ++ [93]) →
    (renderElems es).length + 1 ≤ fuel →
    skipArrLoop fuel (Parser.mk data pos) =
      (true, Parser.mk data (pos + (renderElems es).length + 1))

/-- Statement bundle: the array loop at a comma-or-close position. -/
abbrev SArrR (fuel : Nat) : Prop :=
  ∀ (es : List JVal) (data : List Nat) (pos : Nat), elemsWf es = true →
    SegAt data pos (renderRestElems es ++ [93]) →
    (renderRestElems es).length + 1 ≤ fuel →
    skipArrLoop fuel (Parser.mk data pos) =
      (true, Parser.mk data (pos + (renderRestElems es).length + 1))

/-- Statement bundle: the object loop at a field-or-close position. -/
abbrev SObjE (fuel : Nat) : Prop :=
  ∀ (fs : List (List Nat × JVal)) (data : List Nat) (pos : Nat), fieldsWf fs = true →
    SegAt data pos (renderFields fs ++ [125]) →
    (renderFields fs).length + 1 ≤ fuel →
    skipObjLoop fuel (Parser.mk data pos) =
      (true, Parser.mk data (pos + (renderFields fs).length + 1))

/-- Statement bundle: the object loop at a comma-or-close position. -/
abbrev SObjR (fuel : Nat) : Prop :=
  ∀ (fs : List (List Nat × JVal)) (data : List Nat) (pos : Nat), fieldsWf fs = true →
    SegAt data pos (renderRestFields fs ++ [125]) →
    (renderRestFields fs).length + 1 ≤ fuel →
    skipObjLoop fuel (Parser.mk data pos) =
      (true, Parser.mk data (pos + (renderRestFields fs).length + 1))

/-- Streaming decoder state (NewDecoder, apexJSON.go lines 124-135): `buf`
and `readPos` are the Decoder fields; `src`/`srcPos` model the io.Reader (a
bytes source: Read fills up to 512 bytes and reports io.EOF only when no
bytes remain). -/
structure Dec where
  src : List Nat
  srcPos : Nat
  buf : List Nat
  readPos : Nat
deriving Repr, DecidableEq

/-- refillBuffer (apexJSON.go lines 580-608): read up to 512 bytes into a
temp slice, append them to buf, treat io.EOF as success, and reset readPos
to 0 unconditionally — without discarding the already-consumed prefix of
buf. -/
def refillBuffer (d : Dec) : Dec :=
  let chunk := (d.src.drop d.srcPos).take 512
  { src := d.src, srcPos := d.srcPos + chunk.length,
    buf := d.buf ++ chunk, readPos := 0 }

/-- Decoder.skipWhitespace (apexJSON.go lines 380-404): scan whitespace in
the buffer, refilling at its end; `none` is io.EOF (buffer still empty
after a refill).  The fuel only bounds the loop; every run in the theorems
returns well before exhausting it. -/
def skipWsD : Nat → Dec → Option Dec
  | 0, _ => none
  | fuel+1, d =>
    if h : d.readPos < d.buf.length then
      if isWs d.buf[d.readPos] then skipWsD fuel { d with readPos := d.readPos + 1 }
      else some d
    else
      let d2 := refillBuffer d
      if d2.buf.length = 0 then none
      else skipWsD fuel d2

/-- Exponent tail of isCompleteLiteral (related doc under src/unnamed):
optional marker at i, optional sign, at least one digit, then the scan
must have consumed the whole string. -/
def iclExp (s : List Nat) (i : Nat) : Bool :=
  if decide (s[i]? = some 101) || decide (s[i]? = some 69) then
    match s[i + 1]? with
    | none => false
    | some c =>
      if c = 43 ∨ c = 45 then
        match s[i + 2]? with
        | none => false
        | some c2 =>
          if isDigit c2 then decide ((Parser.skipDigits (Parser.mk s (i + 2))).pos = s.length)
          else false
      else if isDigit c then decide ((Parser.skipDigits (Parser.mk s (i + 1))).pos = s.length)
      else false
  else decide (i = s.length)

/-- Fraction tail of isCompleteLiteral: optional `.` with at least one
digit, then the exponent tail. -/
def iclFrac (s : List Nat) (i : Nat) : Bool :=
  if decide (s[i]? = some 46) then
    match s[i + 1]? with
    | none => false
    | some c =>
      if isDigit c then iclExp s ((Parser.skipDigits (Parser.mk s (i + 1))).pos)
      else false
  else iclExp s i

/-- First digit of isCompleteLiteral's number scan: a bare `0`, or a
nonzero digit followed by the maximal digit run. -/
def iclFirstDigit (s : List Nat) (i : Nat) : Bool :=
  match s[i]? with
  | none => false
  | some c =>
    if c = 48 then iclFrac s (i + 1)
    else if 49 ≤ c ∧ c ≤ 57 then
      iclFrac s ((Parser.skipDigits (Parser.mk s (i + 1))).pos)
    else false

/-- isCompleteLiteral (related doc under src/unnamed): structures are never
complete, the three keyword literals are, and otherwise the bytes must scan
as a complete number. -/
def isCompleteLiteral (s : List Nat) : Bool :=
  if 0 < s.length ∧ (s[0]? = some 123 ∨ s[0]? = some 91) then false
  else if s = litNull ∨ s = litTrue ∨ s = litFalse then true
  else if s.length = 0 then false
  else if s[0]? = some 45 then
    if s.length ≤ 1 then false else iclFirstDigit s 1
  else iclFirstDigit s 0

/-- AppendBuffers (src/unnamed): the empty and single-buffer cases copy the
input; the multi-buffer case writes every buffer through Buffer.Write —
which never advances off — and then copies buf[:off], so it returns the
empty slice. -/
def AppendBuffers (buffers : List (List Nat)) : List Nat :=
  match buffers with
  | [] => []
  | [b] => b
  | _ => []

/-- The tokenBuf recycling check at the bottom of readValue's main loop
(apexJSON.go lines 566-575): a token buffer of 4096 bytes or more is moved
into the pending-buffers list. -/
def rvFlush (tb : List Nat) (buffers : List (List Nat)) : List Nat × List (List Nat) :=
  if 4096 ≤ tb.length then ([], buffers ++ [tb]) else (tb, buffers)

/-- Main loop of Decoder.readValue (apexJSON.go lines 455-577), with the
loop state (token buffer, pending buffers, depth, string flags, first
byte) explicit.  A missing byte after a refill models the Go slice-index
panic; the error-path handling of refillBuffer is dead code for a
conforming reader because refillBuffer never returns an error.  The fuel
only bounds the loop. -/
def rvLoop : Nat → Dec → List Nat → List (List Nat) → Int → Bool → Bool → Nat →
    Option (List Nat × Dec)
  | 0, _, _, _, _, _, _, _ => none
  | fuel+1, d, tokenBuf, buffers, depth, inString, escaped, firstChar =>
    let d1 := if d.readPos < d.buf.length then d else refillBuffer d
    if h : d1.readPos < d1.buf.length then
      let c := d1.buf[d1.readPos]
      let tb := tokenBuf ++ [c]
      let d2 : Dec := { d1 with readPos := d1.readPos + 1 }
      if inString then
        if escaped then rvLoop fuel d2 tb buffers depth true false firstChar
        else if c = 92 then rvLoop fuel d2 tb buffers depth true true firstChar
        else if c = 34 then
          if depth = 0 ∧ firstChar = 34 then some (AppendBuffers (buffers ++ [tb]), d2)
          else rvLoop fuel d2 tb buffers depth false escaped firstChar
        else rvLoop fuel d2 tb buffers depth true escaped firstChar
      else if c = 34 then
        let fb := rvFlush tb buffers
        rvLoop fuel d2 fb.1 fb.2 depth true escaped firstChar
      else if c = 123 ∨ c = 91 then
        let fb := rvFlush tb buffers
        rvLoop fuel d2 fb.1 fb.2 (depth + 1) inString escaped firstChar
      else if c = 125 ∨ c = 93 then
        if depth - 1 = 0 then
          if (firstChar = 123 ∧ c = 125) ∨ (firstChar = 91 ∧ c = 93) then
            some (AppendBuffers (buffers ++ [tb]), d2)
          else none
        else if depth - 1 < 0 then none
        else
          let fb := rvFlush tb buffers
          rvLoop fuel d2 fb.1 fb.2 (depth - 1) inString escaped firstChar
      else if isWs c then
        if depth = 0 ∧ ¬(firstChar = 123 ∨ firstChar = 91 ∨ firstChar = 34) then
          if isCompleteLiteral tb.dropLast then
            some (AppendBuffers (buffers ++ [tb.dropLast]),
              { d2 with readPos := d2.readPos - 1 })
          else
            let fb := rvFlush tb buffers
            rvLoop fuel d2 fb.1 fb.2 depth inString escaped firstChar
        else
          let fb := rvFlush tb buffers
          rvLoop fuel d2 fb.1 fb.2 depth inString escaped firstChar
      else if c = 44 ∨ c = 58 then
        if depth = 0 then none
        else
          let fb := rvFlush tb buffers
          rvLoop fuel d2 fb.1 fb.2 depth inString escaped firstChar
      else
        let fb := rvFlush tb buffers
        rvLoop fuel d2 fb.1 fb.2 depth inString escaped firstChar
    else none

/-- The initial whitespace skip inside readValue (apexJSON.go lines
439-447): advance over whitespace, refilling whenever the cursor reaches
the end of the buffer. -/
def rvInitWs : Nat → Dec → Option Dec
  | 0, _ => none
  | fuel+1, d =>
    if h : d.readPos < d.buf.length then
      if isWs d.buf[d.readPos] then
        let d2 : Dec := { d with readPos := d.readPos + 1 }
        if d2.buf.length ≤ d2.readPos then rvInitWs fuel (refillBuffer d2)
        else rvInitWs fuel d2
      else some d
    else some d

/-- Decoder.readValue (apexJSON.go lines 411-577): refill if the buffer is
exhausted, record the first byte, skip initial whitespace, then run the
main loop starting with empty token state. -/
def readValueGo (fuel : Nat) (d : Dec) : Option (List Nat × Dec) :=
  let d1 := if d.buf.length = 0 ∨ d.buf.length ≤ d.readPos then refillBuffer d else d
  match d1.buf[d1.readPos]? with
  | none => none
  | some firstChar =>
    match rvInitWs fuel d1 with
    | none => none
    | some d2 =>
      if d2.readPos < d2.buf.length then rvLoop fuel d2 [] [] 0 false false firstChar
      else none

/-- Decoder.Decode up to the raw value bytes (apexJSON.go lines 155-186):
skip whitespace, then read one raw value; the value is then passed to
Unmarshal. -/
def DecodeRaw (fuel : Nat) (d : Dec) : Option (List Nat × Dec) :=
  match skipWsD fuel d with
  | none => none
  | some d1 => readValueGo fuel d1

/-! ## Helper lemmas -/

theorem grow_off (b : Buffer) (n : Nat) : (b.grow n).off = b.off := by
  simp only [Buffer.grow]
  split <;> rfl

theorem grow_len (b : Buffer) (n : Nat) : (b.grow n).len = b.off + n := by
  simp only [Buffer.grow]
  split <;> rfl

theorem doubleUntil_ge (fuel cur needed : Nat) (h : needed ≤ 2 ^ fuel * cur) :
    needed ≤ doubleUntil fuel cur needed := by
  induction fuel generalizing cur with
  | zero => simpa [doubleUntil] using h
  | succ f ih =>
    unfold doubleUntil
    split
    · exact ih (cur * 2) (by rw [pow_succ, Nat.mul_assoc, Nat.mul_comm 2 cur] at h; exact h)
    · omega

theorem le_lor_left (a b : Nat) : a ≤ a ||| b :=
  Nat.le_of_testBit (fun i h => by simp [Nat.testBit_lor, h])

theorem orShift_ge (m k : Nat) : m ≤ orShift m k :=
  le_lor_left m (m >>> k)

theorem roundPow2Small_ge (n : Nat) : n ≤ roundPow2Small n := by
  have h := le_trans (Nat.sub_le_sub_right (le_refl n) 1)
    (le_trans (orShift_ge (n - 1) 1)
      (le_trans (orShift_ge _ 2) (le_trans (orShift_ge _ 4) (orShift_ge _ 8))))
  unfold roundPow2Small
  omega

theorem growNewCap_ge (b : Buffer) (n : Nat) :
    b.off + n ≤
      (if 33554432 <
          (if b.arr.length = 0 then doubleUntil (b.off + n) 64 (b.off + n)
           else if b.arr.length < 512 then roundPow2Small (max (b.arr.length * 4) (b.off + n))
           else if b.arr.length < 8192 then max (b.arr.length * 2) (b.off + n)
           else max (b.arr.length + b.arr.length / 2) (b.off + n)) ∧ b.off + n ≤ 33554432
       then 33554432
       else
          (if b.arr.length = 0 then doubleUntil (b.off + n) 64 (b.off + n)
           else if b.arr.length < 512 then roundPow2Small (max (b.arr.length * 4) (b.off + n))
           else if b.arr.length < 8192 then max (b.arr.length * 2) (b.off + n)
           else max (b.arr.length + b.arr.length / 2) (b.off + n))) := by
  have hbase : b.off + n ≤
      (if b.arr.length = 0 then doubleUntil (b.off + n) 64 (b.off + n)
       else if b.arr.length < 512 then roundPow2Small (max (b.arr.length * 4) (b.off + n))
       else if b.arr.length < 8192 then max (b.arr.length * 2) (b.off + n)
       else max (b.arr.length + b.arr.length / 2) (b.off + n)) := by
    split
    · exact doubleUntil_ge (b.off + n) 64 (b.off + n)
        (le_trans (le_of_lt (Nat.lt_two_pow _)) (Nat.le_mul_of_pos_right _ (by omega)))
    · split
      · exact le_trans (le_max_right _ _) (roundPow2Small_ge _)
      · split
        · exact le_max_right _ _
        · exact le_max_right _ _
  by_cases hcl : 33554432 <
      (if b.arr.length = 0 then doubleUntil (b.off + n) 64 (b.off + n)
       else if b.arr.length < 512 then roundPow2Small (max (b.arr.length * 4) (b.off + n))
       else if b.arr.length < 8192 then max (b.arr.length * 2) (b.off + n)
       else max (b.arr.length + b.arr.length / 2) (b.off + n)) ∧ b.off + n ≤ 33554432
  · rw [if_pos hcl]
    exact hcl.2
  · rw [if_neg hcl]
    exact hbase

theorem grow_cap (b : Buffer) (n : Nat) (hol : b.off ≤ b.arr.length) :
    b.off + n ≤ (b.grow n).arr.length := by
  have hge := growNewCap_ge b n
  simp only [Buffer.grow]
  split
  · next hle => simpa using hle
  · next hgt =>
    simp only [List.length_append, List.length_take, List.length_replicate,
      Nat.min_eq_left hol]
    omega

theorem grow_prefix (b : Buffer) (n : Nat) (hol : b.off ≤ b.arr.length) :
    (b.grow n).arr.take b.off = b.arr.take b.off := by
  simp only [Buffer.grow]
  split
  · rfl
  · rw [List.take_append_of_le_length (by simpa using hol), List.take_take, Nat.min_self]

theorem listCopyAt_take (arr xs : List Nat) (i : Nat) (h : i ≤ arr.length) :
    (listCopyAt arr i xs).take i = arr.take i := by
  unfold listCopyAt
  rw [List.append_assoc, List.take_append_of_le_length (by simpa using h),
    List.take_take, Nat.min_self]

theorem listCopyAt_drop (arr xs : List Nat) (i : Nat) (h : i ≤ arr.length) :
    (listCopyAt arr i xs).drop i = xs ++ arr.drop (i + xs.length) := by
  unfold listCopyAt
  rw [List.append_assoc, List.drop_append_of_le_length (by simpa using h)]
  simp [Nat.min_eq_left h]

theorem segAt_nil (data : List Nat) (pos : Nat) : SegAt data pos [] := rfl

theorem segAt_length_le (data seg : List Nat) (pos : Nat) (h : SegAt data pos seg) :
    seg.length ≤ data.length - pos := by
  unfold SegAt at h
  have hlen := congrArg List.length h
  simp only [List.length_take, List.length_drop] at hlen
  have h3 := Nat.min_le_right seg.length (data.length - pos)
  omega

theorem segAt_cons (data : List Nat) (pos c : Nat) (s : List Nat) :
    SegAt data pos (c :: s) ↔ data[pos]? = some c ∧ SegAt data (pos + 1) s := by
  have h0 : (data.drop pos)[0]? = data[pos]? := by
    simpa using List.getElem?_drop data pos 0
  have h1 : data.drop (pos + 1) = (data.drop pos).drop 1 := by
    rw [List.drop_drop]
  unfold SegAt
  cases hd : data.drop pos with
  | nil =>
    rw [hd] at h0
    constructor
    · intro h; simp at h
    · intro h
      rw [← h0] at h
      simp at h
  | cons d t =>
    rw [hd] at h0 h1
    simp only [List.getElem?_cons_zero] at h0
    simp only [List.drop_one, List.tail_cons] at h1
    constructor
    · intro h
      simp only [List.length_cons, List.take_succ_cons] at h
      injection h with hdc hts
      exact ⟨by rw [← h0, hdc], by rw [h1]; exact hts⟩
    · intro h
      obtain ⟨hc, hs⟩ := h
      rw [← h0] at hc
      injection hc with hc
      rw [h1] at hs
      simp only [List.length_cons, List.take_succ_cons]
      rw [hc, hs]

theorem segAt_append (data : List Nat) (a b : List Nat) (pos : Nat) :
    SegAt data pos (a ++ b) ↔ SegAt data pos a ∧ SegAt data (pos + a.length) b := by
  induction a generalizing pos with
  | nil =>
    simp only [List.nil_append, List.length_nil, Nat.add_zero]
    exact (and_iff_right (segAt_nil data pos)).symm
  | cons c a ih =>
    simp only [List.cons_append, segAt_cons, ih, List.length_cons]
    have harith : pos + 1 + a.length = pos + (a.length + 1) := by omega
    rw [harith, and_assoc]

theorem segAt_slice (data seg : List Nat) (pos : Nat) (h : SegAt data pos seg) :
    (data.take (pos + seg.length)).drop pos = seg := by
  rw [List.drop_take]
  have harith : pos + seg.length - pos = seg.length := by omega
  rw [harith]
  exact h

theorem lookIs_eq (data : List Nat) (pos c b : Nat) (h : data[pos]? = some c) :
    Parser.lookIs (Parser.mk data pos) b = decide (c = b) := by
  rw [List.getElem?_eq_some] at h
  obtain ⟨hlt, hc⟩ := h
  unfold Parser.lookIs
  rw [dif_pos hlt]
  simp [hc]

theorem lookIs_none (data : List Nat) (pos b : Nat) (h : data[pos]? = none) :
    Parser.lookIs (Parser.mk data pos) b = false := by
  rw [List.getElem?_eq_none_iff] at h
  unfold Parser.lookIs
  rw [dif_neg (by dsimp only; omega)]

theorem lookDigit_eq (data : List Nat) (pos c : Nat) (h : data[pos]? = some c) :
    Parser.lookDigit (Parser.mk data pos) = isDigit c := by
  rw [List.getElem?_eq_some] at h
  obtain ⟨hlt, hc⟩ := h
  unfold Parser.lookDigit
  rw [dif_pos hlt]
  simp [hc]

theorem lookDigit_none (data : List Nat) (pos : Nat) (h : data[pos]? = none) :
    Parser.lookDigit (Parser.mk data pos) = false := by
  rw [List.getElem?_eq_none_iff] at h
  unfold Parser.lookDigit
  rw [dif_neg (by dsimp only; omega)]

theorem skipWhitespace_nop (p : Parser)
    (h : ∀ c, p.data[p.pos]? = some c → isWs c = false) :
    p.skipWhitespace = p := by
  unfold Parser.skipWhitespace
  cases hf : p.data.length - p.pos with
  | zero => rfl
  | succ f =>
    unfold skipWsAux
    split
    · next hlt =>
      have hw : isWs p.data[p.pos] = false :=
        h _ ((List.getElem?_eq_some).2 ⟨hlt, rfl⟩)
      rw [hw]
      simp
    · rfl

theorem skipDigitsAux_run (ds : List Nat) : ∀ (fuel : Nat) (data : List Nat) (pos : Nat),
    allDigits ds = true → SegAt data pos ds → stopDigit data (pos + ds.length) = true →
    ds.length ≤ fuel →
    skipDigitsAux fuel (Parser.mk data pos) = Parser.mk data (pos + ds.length) := by
  induction ds with
  | nil =>
    intro fuel data pos _ _ hstop _
    simp only [List.length_nil, Nat.add_zero] at hstop ⊢
    cases fuel with
    | zero => rfl
    | succ f =>
      unfold skipDigitsAux
      dsimp only
      split
      · next hlt =>
        unfold stopDigit at hstop
        rw [(List.getElem?_eq_some).2 ⟨hlt, rfl⟩] at hstop
        simp only [Bool.not_eq_true'] at hstop
        simp [hstop]
      · rfl
  | cons d dt ih =>
    intro fuel data pos hdig hseg hstop hfuel
    rw [segAt_cons] at hseg
    obtain ⟨hd0, hseg'⟩ := hseg
    have hdd : isDigit d = true ∧ allDigits dt = true := by
      unfold allDigits at hdig ⊢
      simpa using hdig
    cases fuel with
    | zero => simp at hfuel
    | succ f =>
      rw [List.getElem?_eq_some] at hd0
      obtain ⟨hlt, hc⟩ := hd0
      have hstop2 : stopDigit data (pos + 1 + dt.length) = true := by
        have harith : pos + 1 + dt.length = pos + (d :: dt).length := by
          simp only [List.length_cons]
          omega
        rw [harith]
        exact hstop
      have hfuel2 : dt.length ≤ f := by
        simp only [List.length_cons] at hfuel
        omega
      have hrec := ih f data (pos + 1) hdd.2 hseg' hstop2 hfuel2
      unfold skipDigitsAux
      dsimp only
      rw [dif_pos hlt, if_pos (show isDigit data[pos] = true by rw [hc]; exact hdd.1)]
      rw [hrec]
      simp only [List.length_cons]
      congr 1
      omega

theorem skipDigits_run (data ds : List Nat) (pos : Nat)
    (hd : allDigits ds = true) (hseg : SegAt data pos ds)
    (hstop : stopDigit data (pos + ds.length) = true) :
    Parser.skipDigits (Parser.mk data pos) = Parser.mk data (pos + ds.length) := by
  unfold Parser.skipDigits
  exact skipDigitsAux_run ds _ data pos hd hseg hstop
    (by have := segAt_length_le data ds pos hseg; dsimp only; omega)


theorem numDelim_stop (data : List Nat) (i : Nat) (h : numDelim data i = true) :
    stopDigit data i = true := by
  unfold numDelim at h
  unfold stopDigit
  cases hd : data[i]? with
  | none => rfl
  | some c =>
    rw [hd] at h
    simp only [Bool.not_eq_true', Bool.or_eq_false_iff] at h
    simp [h.1.1.1]

theorem digitRun_consume (data ds : List Nat) (pos : Nat)
    (hne : ds ≠ []) (hdig : allDigits ds = true)
    (hseg : SegAt data pos ds) (hstop : stopDigit data (pos + ds.length) = true) :
    Parser.lookDigit (Parser.mk data pos) = true ∧
    Parser.skipDigits (Parser.mk data (pos + 1)) = Parser.mk data (pos + ds.length) := by
  cases ds with
  | nil => exact absurd rfl hne
  | cons d dt =>
    rw [segAt_cons] at hseg
    obtain ⟨hd0, hseg2⟩ := hseg
    have hdd : isDigit d = true ∧ allDigits dt = true := by
      unfold allDigits at hdig ⊢
      simpa using hdig
    refine ⟨by rw [lookDigit_eq data pos d hd0]; exact hdd.1, ?_⟩
    have hrun := skipDigits_run data dt (pos + 1) hdd.2 hseg2 (by
      have harith : pos + 1 + dt.length = pos + (d :: dt).length := by
        simp only [List.length_cons]; omega
      rw [harith]; exact hstop)
    rw [hrun]
    congr 1
    simp only [List.length_cons]
    omega

theorem isDigit_ne (c b : Nat) (hc : isDigit c = true) (hb : b < 48) :
    decide (c = b) = false := by
  simp only [isDigit, decide_eq_true_eq] at hc
  exact decide_eq_false (by omega)

theorem expTail_render (data : List Nat) (pos start : Nat)
    (e : Option (Nat × Option Nat × List Nat))
    (hwf : expWfB e = true)
    (hseg : SegAt data pos (expRender e))
    (hdelim : numDelim data (pos + (expRender e).length) = true) :
    Parser.expTail (Parser.mk data pos) start =
      (some ((data.take (pos + (expRender e).length)).drop start),
       Parser.mk data (pos + (expRender e).length)) := by
  cases e with
  | none =>
    simp only [expRender, List.length_nil, Nat.add_zero] at hdelim ⊢
    have hno : Parser.lookIs (Parser.mk data pos) 101 = false ∧
        Parser.lookIs (Parser.mk data pos) 69 = false := by
      unfold numDelim at hdelim
      cases hd : data[pos]? with
      | none => exact ⟨lookIs_none data pos 101 hd, lookIs_none data pos 69 hd⟩
      | some c =>
        rw [hd] at hdelim
        simp only [Bool.not_eq_true', Bool.or_eq_false_iff, decide_eq_false_iff_not]
          at hdelim
        exact ⟨by rw [lookIs_eq data pos c 101 hd]; exact decide_eq_false hdelim.1.2,
               by rw [lookIs_eq data pos c 69 hd]; exact decide_eq_false hdelim.2⟩
    unfold Parser.expTail
    rw [hno.1, hno.2]
    simp
  | some x =>
    obtain ⟨mark, sgn, ds⟩ := x
    simp only [expWfB, Bool.and_eq_true, decide_eq_true_eq] at hwf
    obtain ⟨⟨⟨hmark, hsgn⟩, hne⟩, hds⟩ := hwf
    simp only [expRender] at hseg hdelim ⊢
    rw [segAt_cons] at hseg
    obtain ⟨hmk, hseg2⟩ := hseg
    rw [segAt_append] at hseg2
    obtain ⟨hsg, hdseg⟩ := hseg2
    have hcond : (Parser.lookIs (Parser.mk data pos) 101 ||
        Parser.lookIs (Parser.mk data pos) 69) = true := by
      rw [lookIs_eq data pos mark 101 hmk, lookIs_eq data pos mark 69 hmk]
      rcases hmark with h | h <;> simp [h]
    unfold Parser.expTail
    dsimp only
    rw [if_pos hcond]
    cases sgn with
    | some s =>
      dsimp only at hsg hdseg hdelim hsgn
      rw [decide_eq_true_eq] at hsgn
      rw [segAt_cons] at hsg
      obtain ⟨hs0, _⟩ := hsg
      have hsgncond : (Parser.lookIs (Parser.mk data (pos + 1)) 43 ||
          Parser.lookIs (Parser.mk data (pos + 1)) 45) = true := by
        rw [lookIs_eq data (pos + 1) s 43 hs0, lookIs_eq data (pos + 1) s 45 hs0]
        rcases hsgn with h | h <;> simp [h]
      rw [if_pos hsgncond]
      have hstop : stopDigit data (pos + 1 + 1 + ds.length) = true := by
        apply numDelim_stop
        have harith : pos + 1 + 1 + ds.length = pos + (mark :: ([s] ++ ds)).length := by
          simp only [List.length_cons, List.length_append, List.length_nil]
          omega
        rw [harith]
        exact hdelim
      have hdr := digitRun_consume data ds (pos + 1 + 1) hne hds
        (by simpa [Nat.add_assoc] using hdseg) hstop
      rw [if_pos hdr.1]
      dsimp only
      rw [hdr.2]
      have harith2 : pos + 1 + 1 + ds.length = pos + (mark :: ([s] ++ ds)).length := by
        simp only [List.length_cons, List.length_append, List.length_nil]
        omega
      rw [harith2]
    | none =>
      dsimp only at hsg hdseg hdelim hsgn
      have hd0 : ∃ d dt, ds = d :: dt := by
        cases ds with
        | nil => exact absurd rfl hne
        | cons d dt => exact ⟨d, dt, rfl⟩
      obtain ⟨d, dt, rfl⟩ := hd0
      have hdseg2 : SegAt data (pos + 1) (d :: dt) := by simpa using hdseg
      have hdfirst : data[pos + 1]? = some d := ((segAt_cons data (pos + 1) d dt).1 hdseg2).1
      have hddig : isDigit d = true := by
        unfold allDigits at hds
        simp only [List.all_cons, Bool.and_eq_true] at hds
        exact hds.1
      have hsgncond : (Parser.lookIs (Parser.mk data (pos + 1)) 43 ||
          Parser.lookIs (Parser.mk data (pos + 1)) 45) = false := by
        rw [lookIs_eq data (pos + 1) d 43 hdfirst, lookIs_eq data (pos + 1) d 45 hdfirst]
        rw [isDigit_ne d 43 hddig (by omega), isDigit_ne d 45 hddig (by omega)]
        rfl
      rw [if_neg (show ¬((Parser.lookIs (Parser.mk data (pos + 1)) 43 ||
          Parser.lookIs (Parser.mk data (pos + 1)) 45) = true) by simp [hsgncond])]
      have hstop : stopDigit data (pos + 1 + (d :: dt).length) = true := by
        apply numDelim_stop
        have harith : pos + 1 + (d :: dt).length = pos + (mark :: ([] ++ d :: dt)).length := by
          simp only [List.length_cons, List.nil_append]
          omega
        rw [harith]
        exact hdelim
      have hdr := digitRun_consume data (d :: dt) (pos + 1) (by simp) hds hdseg2 hstop
      rw [if_pos hdr.1]
      dsimp only
      rw [hdr.2]
      have harith2 : pos + 1 + (d :: dt).length = pos + (mark :: ([] ++ d :: dt)).length := by
        simp only [List.length_cons, List.nil_append]
        omega
      rw [harith2]

theorem expStart_stop (data : List Nat) (i : Nat) (e : Option (Nat × Option Nat × List Nat))
    (he : expWfB e = true) (hseg : SegAt data i (expRender e))
    (hdelim : numDelim data (i + (expRender e).length) = true) :
    stopDigit data i = true := by
  cases e with
  | none =>
    apply numDelim_stop
    simpa [expRender] using hdelim
  | some x =>
    obtain ⟨mark, sgn, ds⟩ := x
    simp only [expWfB, Bool.and_eq_true, decide_eq_true_eq] at he
    simp only [expRender] at hseg
    rw [segAt_cons] at hseg
    unfold stopDigit
    rw [hseg.1]
    rcases he.1.1.1 with h | h <;> simp [h, isDigit]

theorem fracStart_stop (data : List Nat) (i : Nat) (fr : Option (List Nat))
    (e : Option (Nat × Option Nat × List Nat))
    (he : expWfB e = true)
    (hseg : SegAt data i (fracRender fr ++ expRender e))
    (hdelim : numDelim data (i + (fracRender fr ++ expRender e).length) = true) :
    stopDigit data i = true := by
  cases fr with
  | none =>
    simp only [fracRender, List.nil_append] at hseg hdelim
    exact expStart_stop data i e he hseg hdelim
  | some f =>
    simp only [fracRender, List.cons_append] at hseg
    rw [segAt_cons] at hseg
    unfold stopDigit
    rw [hseg.1]
    simp [isDigit]

theorem numTail_render (data : List Nat) (pos start : Nat)
    (fr : Option (List Nat)) (e : Option (Nat × Option Nat × List Nat))
    (hfr : fracWfB fr = true) (he : expWfB e = true)
    (hseg : SegAt data pos (fracRender fr ++ expRender e))
    (hdelim : numDelim data (pos + (fracRender fr ++ expRender e).length) = true) :
    Parser.numTail (Parser.mk data pos) start =
      (some ((data.take (pos + (fracRender fr ++ expRender e).length)).drop start),
       Parser.mk data (pos + (fracRender fr ++ expRender e).length)) := by
  cases fr with
  | none =>
    simp only [fracRender, List.nil_append] at hseg hdelim ⊢
    have h46 : Parser.lookIs (Parser.mk data pos) 46 = false := by
      cases e with
      | none =>
        simp only [expRender, List.length_nil, Nat.add_zero] at hdelim
        unfold numDelim at hdelim
        cases hd : data[pos]? with
        | none => exact lookIs_none data pos 46 hd
        | some c =>
          rw [hd] at hdelim
          simp only [Bool.not_eq_true', Bool.or_eq_false_iff, decide_eq_false_iff_not]
            at hdelim
          rw [lookIs_eq data pos c 46 hd]
          exact decide_eq_false hdelim.1.1.2
      | some x =>
        obtain ⟨mark, sgn, ds⟩ := x
        simp only [expWfB, Bool.and_eq_true, decide_eq_true_eq] at he
        simp only [expRender] at hseg
        rw [segAt_cons] at hseg
        rw [lookIs_eq data pos mark 46 hseg.1]
        rcases he.1.1.1 with h | h <;> simp [h]
    unfold Parser.numTail
    rw [if_neg (show ¬ (Parser.lookIs (Parser.mk data pos) 46 = true) by simp [h46])]
    exact expTail_render data pos start e he hseg hdelim
  | some f =>
    simp only [fracWfB, Bool.and_eq_true, decide_eq_true_eq] at hfr
    obtain ⟨hfne, hfd⟩ := hfr
    simp only [fracRender, List.cons_append] at hseg hdelim ⊢
    rw [segAt_cons] at hseg
    obtain ⟨h46b, hseg2⟩ := hseg
    rw [segAt_append] at hseg2
    obtain ⟨hfseg, heseg⟩ := hseg2
    have harith : pos + (46 :: (f ++ expRender e)).length =
        pos + 1 + f.length + (expRender e).length := by
      simp only [List.length_cons, List.length_append]
      omega
    have hdelim2 : numDelim data (pos + 1 + f.length + (expRender e).length) = true := by
      rw [← harith]; exact hdelim
    have hstop : stopDigit data (pos + 1 + f.length) = true :=
      expStart_stop data (pos + 1 + f.length) e he heseg hdelim2
    have h46 : Parser.lookIs (Parser.mk data pos) 46 = true := by
      rw [lookIs_eq data pos 46 46 h46b]
      simp
    unfold Parser.numTail
    dsimp only
    rw [if_pos h46]
    have hdr := digitRun_consume data f (pos + 1) hfne hfd hfseg hstop
    rw [if_pos hdr.1]
    rw [hdr.2]
    rw [expTail_render data (pos + 1 + f.length) start e he heseg hdelim2]
    rw [harith]

theorem parseNumber_render (data : List Nat) (pos : Nat) (nl : NumLit)
    (hwf : nl.wfB = true) (hseg : SegAt data pos nl.render)
    (hdelim : numDelim data (pos + nl.render.length) = true) :
    Parser.parseNumber (Parser.mk data pos) =
      (some nl.render, Parser.mk data (pos + nl.render.length)) := by
  obtain ⟨neg, ints, fr, e⟩ := nl
  simp only [NumLit.wfB, Bool.and_eq_true, decide_eq_true_eq] at hwf
  obtain ⟨⟨⟨hine, hid⟩, hfr⟩, he⟩ := hwf
  have htok := segAt_slice data _ pos hseg
  cases neg with
  | true =>
    simp only [NumLit.render, List.append_assoc, if_true, List.cons_append,
      List.singleton_append, List.nil_append] at hseg hdelim htok ⊢
    rw [segAt_cons] at hseg
    obtain ⟨h45, hseg2⟩ := hseg
    rw [segAt_append] at hseg2
    obtain ⟨hiseg, hrest⟩ := hseg2
    have harith : pos + (45 :: (ints ++ (fracRender fr ++ expRender e))).length =
        pos + 1 + ints.length + (fracRender fr ++ expRender e).length := by
      simp only [List.length_cons, List.length_append]
      omega
    have hdelim2 : numDelim data
        (pos + 1 + ints.length + (fracRender fr ++ expRender e).length) = true := by
      rw [← harith]; exact hdelim
    have hstop : stopDigit data (pos + 1 + ints.length) = true :=
      fracStart_stop data _ fr e he hrest hdelim2
    have hdr := digitRun_consume data ints (pos + 1) hine hid hiseg hstop
    simp only [Parser.parseNumber]
    rw [if_pos (show Parser.lookIs (Parser.mk data pos) 45 = true by
      rw [lookIs_eq data pos 45 45 h45]; simp)]
    rw [if_pos hdr.1]
    rw [hdr.2]
    rw [numTail_render data (pos + 1 + ints.length) pos fr e hfr he hrest hdelim2]
    rw [harith] at htok ⊢
    rw [htok]
  | false =>
    simp only [NumLit.render, List.append_assoc, Bool.false_eq_true, if_false,
      List.nil_append] at hseg hdelim htok ⊢
    have hints : ∃ d dt, ints = d :: dt := by
      cases ints with
      | nil => exact absurd rfl hine
      | cons d dt => exact ⟨d, dt, rfl⟩
    obtain ⟨d, dt, hdd⟩ := hints
    have hrest : SegAt data (pos + ints.length) (fracRender fr ++ expRender e) :=
      ((segAt_append data ints (fracRender fr ++ expRender e) pos).1 hseg).2
    have hiseg : SegAt data pos ints :=
      ((segAt_append data ints (fracRender fr ++ expRender e) pos).1 hseg).1
    have hd0 : data[pos]? = some d := by
      rw [hdd] at hiseg
      exact ((segAt_cons data pos d dt).1 hiseg).1
    have hddig : isDigit d = true := by
      rw [hdd] at hid
      unfold allDigits at hid
      simp only [List.all_cons, Bool.and_eq_true] at hid
      exact hid.1
    have harith : pos + (ints ++ (fracRender fr ++ expRender e)).length =
        pos + ints.length + (fracRender fr ++ expRender e).length := by
      simp only [List.length_append]
      omega
    have hdelim2 : numDelim data
        (pos + ints.length + (fracRender fr ++ expRender e).length) = true := by
      rw [← harith]; exact hdelim
    have hstop : stopDigit data (pos + ints.length) = true :=
      fracStart_stop data _ fr e he hrest hdelim2
    have hdr := digitRun_consume data ints pos hine hid hiseg hstop
    simp only [Parser.parseNumber]
    rw [if_neg (show ¬ (Parser.lookIs (Parser.mk data pos) 45 = true) by
      rw [lookIs_eq data pos d 45 hd0, isDigit_ne d 45 hddig (by omega)]; simp)]
    rw [if_pos hdr.1]
    rw [hdr.2]
    rw [numTail_render data (pos + ints.length) pos fr e hfr he hrest hdelim2]
    rw [harith] at htok ⊢
    rw [htok]

theorem lookIs_iff (data : List Nat) (pos b : Nat) :
    Parser.lookIs (Parser.mk data pos) b = true ↔ data[pos]? = some b := by
  unfold Parser.lookIs
  split
  · next h =>
    rw [decide_eq_true_eq]
    constructor
    · intro hd
      exact (List.getElem?_eq_some).2 ⟨h, hd⟩
    · intro hd
      obtain ⟨_, hv⟩ := (List.getElem?_eq_some).1 hd
      exact hv
  · next h =>
    constructor
    · intro hd
      exact absurd hd (by simp)
    · intro hd
      rw [List.getElem?_eq_none_iff.2 (by dsimp only at h; omega)] at hd
      exact absurd hd (by simp)

theorem lookDigit_true (data : List Nat) (pos : Nat)
    (h : Parser.lookDigit (Parser.mk data pos) = true) :
    ∃ c, data[pos]? = some c ∧ isDigit c = true := by
  unfold Parser.lookDigit at h
  split at h
  · next hlt => exact ⟨data[pos], (List.getElem?_eq_some).2 ⟨hlt, rfl⟩, h⟩
  · exact absurd h (by simp)

theorem skipDigitsAux_chars : ∀ (fuel : Nat) (data : List Nat) (pos : Nat),
    data.length - pos ≤ fuel →
    ∃ ds : List Nat, allDigits ds = true ∧ SegAt data pos ds ∧
      skipDigitsAux fuel (Parser.mk data pos) = Parser.mk data (pos + ds.length) ∧
      stopDigit data (pos + ds.length) = true := by
  intro fuel
  induction fuel with
  | zero =>
    intro data pos hf
    refine ⟨[], rfl, segAt_nil data pos, by simp [skipDigitsAux], ?_⟩
    unfold stopDigit
    rw [List.getElem?_eq_none_iff.2 (by omega)]
  | succ f ih =>
    intro data pos hf
    by_cases hlt : pos < data.length
    · by_cases hdig : isDigit data[pos] = true
      · obtain ⟨ds, hall, hseg, heq, hstop⟩ := ih data (pos + 1) (by omega)
        refine ⟨data[pos] :: ds, ?_, ?_, ?_, ?_⟩
        · unfold allDigits at hall ⊢
          simp [hdig, hall]
        · exact (segAt_cons data pos _ ds).2 ⟨(List.getElem?_eq_some).2 ⟨hlt, rfl⟩, hseg⟩
        · unfold skipDigitsAux
          rw [dif_pos hlt, if_pos hdig, heq]
          congr 1
          simp only [List.length_cons]
          omega
        · have harith : pos + 1 + ds.length = pos + (data[pos] :: ds).length := by
            simp only [List.length_cons]; omega
          rw [← harith]
          exact hstop
      · refine ⟨[], rfl, segAt_nil data pos, ?_, ?_⟩
        · unfold skipDigitsAux
          rw [dif_pos hlt, if_neg hdig]
          simp
        · unfold stopDigit
          simp only [List.length_nil, Nat.add_zero]
          rw [(List.getElem?_eq_some).2 ⟨hlt, rfl⟩]
          simp only [Bool.not_eq_true'] at hdig ⊢
          simp [hdig]
    · refine ⟨[], rfl, segAt_nil data pos, ?_, ?_⟩
      · unfold skipDigitsAux
        rw [dif_neg hlt]
        simp
      · unfold stopDigit
        rw [List.getElem?_eq_none_iff.2 (by omega)]

theorem skipDigits_chars (data : List Nat) (pos : Nat) :
    ∃ ds : List Nat, allDigits ds = true ∧ SegAt data pos ds ∧
      Parser.skipDigits (Parser.mk data pos) = Parser.mk data (pos + ds.length) ∧
      stopDigit data (pos + ds.length) = true :=
  skipDigitsAux_chars (data.length - pos) data pos (le_refl _)

theorem expTail_chars (data : List Nat) (pos start : Nat) (tok : List Nat) (q : Parser)
    (h : Parser.expTail (Parser.mk data pos) start = (some tok, q)) :
    ∃ e, expWfB e = true ∧ SegAt data pos (expRender e) ∧
      q = Parser.mk data (pos + (expRender e).length) ∧
      tok = (data.take (pos + (expRender e).length)).drop start := by
  simp only [Parser.expTail] at h
  by_cases hm : ((Parser.mk data pos).lookIs 101 || (Parser.mk data pos).lookIs 69) = true
  · rw [if_pos hm] at h
    obtain ⟨mark, hmk, hmval⟩ : ∃ m, data[pos]? = some m ∧ (m = 101 ∨ m = 69) := by
      rw [Bool.or_eq_true] at hm
      rcases hm with h1 | h1
      · exact ⟨101, (lookIs_iff data pos 101).1 h1, Or.inl rfl⟩
      · exact ⟨69, (lookIs_iff data pos 69).1 h1, Or.inr rfl⟩
    by_cases hs : ((Parser.mk data (pos + 1)).lookIs 43 ||
        (Parser.mk data (pos + 1)).lookIs 45) = true
    · rw [if_pos hs] at h
      dsimp only at h
      obtain ⟨s, hsk, hsval⟩ : ∃ s, data[pos + 1]? = some s ∧ (s = 43 ∨ s = 45) := by
        have hs2 := hs
        rw [Bool.or_eq_true] at hs2
        rcases hs2 with h1 | h1
        · exact ⟨43, (lookIs_iff data (pos + 1) 43).1 h1, Or.inl rfl⟩
        · exact ⟨45, (lookIs_iff data (pos + 1) 45).1 h1, Or.inr rfl⟩
      by_cases hd : (Parser.mk data (pos + 2)).lookDigit = true
      · rw [if_pos hd] at h
        obtain ⟨d, hdx, hdig⟩ := lookDigit_true data (pos + 2) hd
        obtain ⟨ds, hall, hseg, heqd, hstop⟩ := skipDigits_chars data (pos + 3)
        have harith : pos + 2 + 1 = pos + 3 := by omega
        rw [harith, heqd] at h
        injection h with h1 h2
        injection h1 with h1
        have hex : expRender (some (mark, some s, d :: ds)) = mark :: s :: d :: ds := by
          simp [expRender]
        refine ⟨some (mark, some s, d :: ds), ?_, ?_, ?_, ?_⟩
        · unfold expWfB
          simp only [allDigits, List.all_cons] at hall ⊢
          rcases hmval with hv | hv <;> rcases hsval with hw | hw <;>
            simp [hv, hw, hdig, hall]
        · rw [hex]
          refine (segAt_cons data pos mark _).2 ⟨hmk, ?_⟩
          refine (segAt_cons data (pos + 1) s _).2 ⟨hsk, ?_⟩
          have harith2 : pos + 1 + 1 = pos + 2 := by omega
          rw [harith2]
          refine (segAt_cons data (pos + 2) d ds).2 ⟨hdx, ?_⟩
          have harith3 : pos + 2 + 1 = pos + 3 := by omega
          rw [harith3]
          exact hseg
        · rw [← h2]
          congr 1
          rw [hex]
          simp only [List.length_cons]
          omega
        · rw [← h1]
          congr 2
          rw [hex]
          simp only [List.length_cons]
          omega
      · rw [if_neg hd] at h
        exact absurd h (by simp)
    · rw [if_neg hs] at h
      dsimp only at h
      by_cases hd : (Parser.mk data (pos + 1)).lookDigit = true
      · rw [if_pos hd] at h
        obtain ⟨d, hdx, hdig⟩ := lookDigit_true data (pos + 1) hd
        obtain ⟨ds, hall, hseg, heqd, hstop⟩ := skipDigits_chars data (pos + 2)
        have harith : pos + 1 + 1 = pos + 2 := by omega
        rw [harith, heqd] at h
        injection h with h1 h2
        injection h1 with h1
        have hex : expRender (some (mark, none, d :: ds)) = mark :: d :: ds := by
          simp [expRender]
        refine ⟨some (mark, none, d :: ds), ?_, ?_, ?_, ?_⟩
        · unfold expWfB
          simp only [allDigits, List.all_cons] at hall ⊢
          rcases hmval with hv | hv <;> simp [hv, hdig, hall]
        · rw [hex]
          refine (segAt_cons data pos mark _).2 ⟨hmk, ?_⟩
          refine (segAt_cons data (pos + 1) d ds).2 ⟨hdx, ?_⟩
          have harith2 : pos + 1 + 1 = pos + 2 := by omega
          rw [harith2]
          exact hseg
        · rw [← h2]
          congr 1
          rw [hex]
          simp only [List.length_cons]
          omega
        · rw [← h1]
          congr 2
          rw [hex]
          simp only [List.length_cons]
          omega
      · rw [if_neg hd] at h
        exact absurd h (by simp)
  · rw [if_neg hm] at h
    injection h with h1 h2
    injection h1 with h1
    refine ⟨none, rfl, segAt_nil data pos, ?_, ?_⟩
    · rw [← h2]
      congr 1
    · rw [← h1]
      congr 2

theorem numTail_chars (data : List Nat) (pos start : Nat) (tok : List Nat) (q : Parser)
    (h : Parser.numTail (Parser.mk data pos) start = (some tok, q)) :
    ∃ fr e, fracWfB fr = true ∧ expWfB e = true ∧
      SegAt data pos (fracRender fr ++ expRender e) ∧
      q = Parser.mk data (pos + (fracRender fr ++ expRender e).length) ∧
      tok = (data.take (pos + (fracRender fr ++ expRender e).length)).drop start := by
  simp only [Parser.numTail] at h
  by_cases hdot : (Parser.mk data pos).lookIs 46 = true
  · rw [if_pos hdot] at h
    by_cases hd : (Parser.mk data (pos + 1)).lookDigit = true
    · rw [if_pos hd] at h
      obtain ⟨d, hdx, hdig⟩ := lookDigit_true data (pos + 1) hd
      obtain ⟨ds, hall, hseg, heqd, hstop⟩ := skipDigits_chars data (pos + 2)
      have harith : pos + 1 + 1 = pos + 2 := by omega
      rw [harith, heqd] at h
      obtain ⟨e, hewf, heseg, hq, htok⟩ := expTail_chars data (pos + 2 + ds.length) start tok q h
      refine ⟨some (d :: ds), e, ?_, hewf, ?_, ?_, ?_⟩
      · unfold fracWfB
        simp only [allDigits, List.all_cons] at hall ⊢
        simp [hdig, hall]
      · unfold fracRender
        refine (segAt_cons data pos 46 _).2 ⟨(lookIs_iff data pos 46).1 hdot, ?_⟩
        refine (segAt_cons data (pos + 1) d _).2 ⟨hdx, ?_⟩
        have harith2 : pos + 1 + 1 = pos + 2 := by omega
        rw [harith2]
        exact (segAt_append data ds (expRender e) (pos + 2)).2 ⟨hseg, heseg⟩
      · rw [hq]
        congr 1
        simp only [fracRender, List.length_append, List.length_cons]
        omega
      · rw [htok]
        congr 2
        simp only [fracRender, List.length_append, List.length_cons]
        omega
    · rw [if_neg hd] at h
      exact absurd h (by simp)
  · rw [if_neg hdot] at h
    obtain ⟨e, hewf, heseg, hq, htok⟩ := expTail_chars data pos start tok q h
    refine ⟨none, e, rfl, hewf, ?_, ?_, ?_⟩
    · simpa only [fracRender, List.nil_append] using heseg
    · simpa only [fracRender, List.nil_append] using hq
    · simpa only [fracRender, List.nil_append] using htok

theorem parseNumber_chars (data : List Nat) (pos : Nat) (tok : List Nat) (q : Parser)
    (h : Parser.parseNumber (Parser.mk data pos) = (some tok, q)) :
    ∃ nl : NumLit, nl.wfB = true ∧ SegAt data pos nl.render ∧
      q = Parser.mk data (pos + nl.render.length) ∧ tok = nl.render := by
  simp only [Parser.parseNumber] at h
  by_cases hneg : (Parser.mk data pos).lookIs 45 = true
  · rw [if_pos hneg] at h
    dsimp only at h
    by_cases hd : (Parser.mk data (pos + 1)).lookDigit = true
    · rw [if_pos hd] at h
      obtain ⟨d, hdx, hdig⟩ := lookDigit_true data (pos + 1) hd
      obtain ⟨ds, hall, hseg, heqd, hstop⟩ := skipDigits_chars data (pos + 2)
      have harith : pos + 1 + 1 = pos + 2 := by omega
      rw [harith, heqd] at h
      obtain ⟨fr, e, hfwf, hewf, hfseg, hq, htok⟩ :=
        numTail_chars data (pos + 2 + ds.length) pos tok q h
      have hr : (NumLit.mk true (d :: ds) fr e).render
          = 45 :: d :: (ds ++ (fracRender fr ++ expRender e)) := by
        simp [NumLit.render, List.append_assoc]
      have hrseg : SegAt data pos (NumLit.mk true (d :: ds) fr e).render := by
        rw [hr]
        refine (segAt_cons data pos 45 _).2 ⟨(lookIs_iff data pos 45).1 hneg, ?_⟩
        refine (segAt_cons data (pos + 1) d _).2 ⟨hdx, ?_⟩
        have harith2 : pos + 1 + 1 = pos + 2 := by omega
        rw [harith2]
        exact (segAt_append data ds (fracRender fr ++ expRender e) (pos + 2)).2 ⟨hseg, hfseg⟩
      have hlen : (NumLit.mk true (d :: ds) fr e).render.length
          = 2 + ds.length + (fracRender fr ++ expRender e).length := by
        rw [hr]
        simp only [List.length_cons, List.length_append]
        omega
      refine ⟨NumLit.mk true (d :: ds) fr e, ?_, hrseg, ?_, ?_⟩
      · unfold NumLit.wfB
        simp only [allDigits, List.all_cons] at hall ⊢
        simp [hdig, hall, hfwf, hewf]
      · rw [hq]
        congr 1
        rw [hlen]
        omega
      · rw [htok]
        have hsl := segAt_slice data _ pos hrseg
        rw [← hsl]
        congr 2
        rw [hlen]
        omega
    · rw [if_neg hd] at h
      exact absurd h (by simp)
  · rw [if_neg hneg] at h
    by_cases hd : (Parser.mk data pos).lookDigit = true
    · rw [if_pos hd] at h
      dsimp only at h
      obtain ⟨d, hdx, hdig⟩ := lookDigit_true data pos hd
      obtain ⟨ds, hall, hseg, heqd, hstop⟩ := skipDigits_chars data (pos + 1)
      rw [heqd] at h
      obtain ⟨fr, e, hfwf, hewf, hfseg, hq, htok⟩ :=
        numTail_chars data (pos + 1 + ds.length) pos tok q h
      have hr : (NumLit.mk false (d :: ds) fr e).render
          = d :: (ds ++ (fracRender fr ++ expRender e)) := by
        simp [NumLit.render, List.append_assoc]
      have hrseg : SegAt data pos (NumLit.mk false (d :: ds) fr e).render := by
        rw [hr]
        refine (segAt_cons data pos d _).2 ⟨hdx, ?_⟩
        exact (segAt_append data ds (fracRender fr ++ expRender e) (pos + 1)).2 ⟨hseg, hfseg⟩
      have hlen : (NumLit.mk false (d :: ds) fr e).render.length
          = 1 + ds.length + (fracRender fr ++ expRender e).length := by
        rw [hr]
        simp only [List.length_cons, List.length_append]
        omega
      refine ⟨NumLit.mk false (d :: ds) fr e, ?_, hrseg, ?_, ?_⟩
      · unfold NumLit.wfB
        simp only [allDigits, List.all_cons] at hall ⊢
        simp [hdig, hall, hfwf, hewf]
      · rw [hq]
        congr 1
        rw [hlen]
        omega
      · rw [htok]
        have hsl := segAt_slice data _ pos hrseg
        rw [← hsl]
        congr 2
        rw [hlen]
        omega
    · rw [if_neg hd] at h
      exact absurd h (by simp)

/-! ## Claim theorems -/

/-- Claim C10 (confirmed): for every byte slice, Extract with zero path
segments returns that slice itself together with found = true.  The input
is universally quantified over arbitrary byte lists — including byte
lists that are not JSON at all — which is exactly the "no byte is read or
validated" behavior: the source returns before constructing a parser. -/
theorem extract_empty_path (data : List Nat) : Extract data [] = some data := rfl

/-- Claim C6 (code_bug): getBufferSize 2048 lands in the medium bucket
(size hint ≤ 4096); with that pool empty, sync.Pool.Get returns the
bucket's New buffer, whose capacity is 1024 < 2048 — against the claim
(and the function's own doc comment) that the returned capacity is at
least the size hint.  The returned offset is 0 as claimed. -/
theorem getBufferSize_capacity_bug :
    (getBufferSize 2048 emptyPools).1.arr.length = 1024 ∧
    (getBufferSize 2048 emptyPools).1.off = 0 ∧
    ¬ 2048 ≤ (getBufferSize 2048 emptyPools).1.arr.length := by
  refine ⟨by decide, rfl, by decide⟩

/-- Claim C5 (code_bug): marshalling the one-byte string 0x01 emits the
control byte verbatim between the quotes — the escape table has entries
only for the five named escapes and no `\u00XX` writer exists in the
emission path — whereas the claim requires the eight bytes of
`"\u0001"`. -/
theorem marshal_control_byte_verbatim :
    marshalStringGo [1] = [34, 1, 34] ∧
    marshalStringGo [1] ≠ [34, 92, 117, 48, 48, 48, 49, 34] := by
  constructor
  · decide
  · decide

/-- Claim C1 (code_bug): round-trip fails for strings containing bytes
that Marshal escapes.  Marshal of the string "a\nb" (bytes 97 10 98)
emits the escaped form `"a\nb"`, and Unmarshal assigns the destination
the raw undecoded bytes 97 92 110 98 (literal backslash then n), which
differ from the original value. -/
theorem roundtrip_string_escape_fails :
    marshalStringGo [97, 10, 98] = [34, 97, 92, 110, 98, 34] ∧
    UnmarshalGo (fun _ => false) (marshalStringGo [97, 10, 98]) RKind.rString =
      some (Except.ok (GoVal.vstr [97, 92, 110, 98]),
        Parser.mk [34, 97, 92, 110, 98, 34] 6) ∧
    GoVal.vstr [97, 92, 110, 98] ≠ GoVal.vstr [97, 10, 98] := by
  refine ⟨by decide, by decide, by decide⟩

/-- Claim C3, counterexample: decoding the four bytes "nxyz" into a
pointer destination succeeds (the destination is set to the null variant
and the cursor advances by four) instead of yielding the syntax error the
claim requires for every byte sequence other than the literal null. -/
theorem unmarshal_nxyz_not_an_error :
    UnmarshalGo (fun _ => false) [110, 120, 121, 122] RKind.rPtr =
      some (Except.ok GoVal.vnull, Parser.mk [110, 120, 121, 122] 4) := by
  decide

/-- Claim C3 (corrected): whenever the first non-whitespace byte is 'n',
unmarshalValue advances the cursor by exactly four bytes without
validating any of them (so no syntax error can arise from the literal)
and applies the null assignment: pointer, map, slice and empty-interface
destinations are set to the null variant, and every other modelled
destination — in particular an integer — receives an
UnmarshalTypeError. -/
theorem unmarshalValue_null_branch (pf : List Nat → Bool) (p0 : Parser) (k : RKind)
    (hn : (p0.skipWhitespace).data[(p0.skipWhitespace).pos]? = some 110) :
    unmarshalValueGo pf p0 k =
      some (setNull k, { p0.skipWhitespace with pos := (p0.skipWhitespace).pos + 4 }) ∧
    (setNull k = Except.ok GoVal.vnull ↔
      (k = RKind.rPtr ∨ k = RKind.rMap ∨ k = RKind.rSlice ∨ k = RKind.rIface)) ∧
    setNull RKind.rInt = Except.error (UErr.typeErr "null" RKind.rInt) := by
  rw [List.getElem?_eq_some] at hn
  obtain ⟨hlt, hb⟩ := hn
  refine ⟨?_, ?_, rfl⟩
  · unfold unmarshalValueGo
    rw [dif_pos hlt, if_pos hb]
  · cases k <;> simp [setNull]

/-- Witness for the C3 theorem: the genuine literal null with a map
destination. -/
theorem unmarshalValue_null_branch_witness :
    ((Parser.mk litNull 0).skipWhitespace).data[((Parser.mk litNull 0).skipWhitespace).pos]? =
      some 110 ∧
    (unmarshalValueGo (fun _ => false) (Parser.mk litNull 0) RKind.rMap =
      some (setNull RKind.rMap,
        { (Parser.mk litNull 0).skipWhitespace with
            pos := ((Parser.mk litNull 0).skipWhitespace).pos + 4 }) ∧
    (setNull RKind.rMap = Except.ok GoVal.vnull ↔
      (RKind.rMap = RKind.rPtr ∨ RKind.rMap = RKind.rMap ∨ RKind.rMap = RKind.rSlice ∨
        RKind.rMap = RKind.rIface)) ∧
    setNull RKind.rInt = Except.error (UErr.typeErr "null" RKind.rInt)) :=
  ⟨by decide, unmarshalValue_null_branch (fun _ => false) (Parser.mk litNull 0) RKind.rMap
    (by decide)⟩

/-- Claim C2 (confirmed): Buffer.Write sets the logical length to
`off + len(p)` and copies p into the backing array at the write offset
while leaving the offset field unchanged, so the prefix `[0, off)` that
Marshal copies out is untouched by Write; Buffer.WriteByte advances the
offset by one and Buffer.WriteString advances it by exactly the count of
bytes it reports written. -/
theorem buffer_write_frame (b : Buffer) (p s : List Nat) (c : Nat)
    (h1 : b.off ≤ b.len) (h2 : b.len ≤ b.arr.length) :
    (b.Write p).1 = p.length ∧
    (b.Write p).2.off = b.off ∧
    (b.Write p).2.len = b.off + p.length ∧
    ((b.Write p).2.arr.drop b.off).take p.length = p ∧
    (b.Write p).2.arr.take (b.Write p).2.off = b.arr.take b.off ∧
    (b.WriteByte c).off = b.off + 1 ∧
    (b.WriteString s).2.off = b.off + (b.WriteString s).1 := by
  have hol : b.off ≤ b.arr.length := le_trans h1 h2
  have hcap := grow_cap b p.length hol
  have hlen := grow_len b p.length
  have hoff := grow_off b p.length
  have hpre := grow_prefix b p.length hol
  have hn : min ((b.grow p.length).len - b.off) p.length = p.length := by
    rw [hlen]; omega
  have hol2 : b.off ≤ (b.grow p.length).arr.length := le_trans (Nat.le_add_right _ _) hcap
  refine ⟨?_, ?_, ?_, ?_, ?_, ?_, ?_⟩
  · simp only [Buffer.Write, hoff]
    exact hn
  · simp only [Buffer.Write]
    exact hoff
  · simp only [Buffer.Write]
    exact hlen
  · simp only [Buffer.Write, hoff, hn, List.take_length]
    rw [listCopyAt_drop _ _ _ hol2, List.take_left]
  · simp only [Buffer.Write, hoff, hn, List.take_length]
    rw [listCopyAt_take _ _ _ hol2]
    exact hpre
  · simp only [Buffer.WriteByte]
    rw [grow_off]
  · unfold Buffer.WriteString
    split
    · simp [grow_off]
    · simp

/-- Witness for the C2 theorem at a concrete buffer and inputs. -/
theorem buffer_write_frame_witness :
    (Buffer.mk [0, 0, 0, 0] 2 1).off ≤ (Buffer.mk [0, 0, 0, 0] 2 1).len ∧
    (Buffer.mk [0, 0, 0, 0] 2 1).len ≤ (Buffer.mk [0, 0, 0, 0] 2 1).arr.length ∧
    (((Buffer.mk [0, 0, 0, 0] 2 1).Write [7, 8]).1 = [7, 8].length ∧
     ((Buffer.mk [0, 0, 0, 0] 2 1).Write [7, 8]).2.off = (Buffer.mk [0, 0, 0, 0] 2 1).off ∧
     ((Buffer.mk [0, 0, 0, 0] 2 1).Write [7, 8]).2.len =
       (Buffer.mk [0, 0, 0, 0] 2 1).off + [7, 8].length ∧
     (((Buffer.mk [0, 0, 0, 0] 2 1).Write [7, 8]).2.arr.drop
       (Buffer.mk [0, 0, 0, 0] 2 1).off).take [7, 8].length = [7, 8] ∧
     ((Buffer.mk [0, 0, 0, 0] 2 1).Write [7, 8]).2.arr.take
       ((Buffer.mk [0, 0, 0, 0] 2 1).Write [7, 8]).2.off =
       (Buffer.mk [0, 0, 0, 0] 2 1).arr.take (Buffer.mk [0, 0, 0, 0] 2 1).off ∧
     ((Buffer.mk [0, 0, 0, 0] 2 1).WriteByte 5).off = (Buffer.mk [0, 0, 0, 0] 2 1).off + 1 ∧
     ((Buffer.mk [0, 0, 0, 0] 2 1).WriteString [9]).2.off =
       (Buffer.mk [0, 0, 0, 0] 2 1).off + ((Buffer.mk [0, 0, 0, 0] 2 1).WriteString [9]).1) :=
  ⟨by decide, by decide,
    buffer_write_frame (Buffer.mk [0, 0, 0, 0] 2 1) [7, 8] [9] 5 (by decide) (by decide)⟩

/-- Claim C4 counterexample: the input "0123" (bytes 48 49 50 51) — an
integer part with a leading zero followed by further digits — is accepted
by parseNumber as a single four-byte number token with the cursor advanced
past all four bytes, not rejected as the claim requires. -/
theorem parseNumber_accepts_0123 :
    Parser.parseNumber (Parser.mk [48, 49, 50, 51] 0) =
      (some [48, 49, 50, 51], Parser.mk [48, 49, 50, 51] 4) := by
  decide

/-- Claim C4 (corrected): parseNumber accepts exactly the RFC 8259 number
grammar with the leading-zero restriction dropped.  Soundness: every
well-formed NumLit rendering placed at the cursor and followed by a
non-number byte (or end of input) is accepted in full, the returned token
being exactly the rendering.  Completeness: every token parseNumber
returns is the rendering of some well-formed NumLit occupying exactly the
consumed bytes.  The grammar (NumLit.wfB) places no restriction on a
leading zero of the integer part. -/
theorem parseNumber_lenient_grammar (data : List Nat) (pos : Nat) :
    (∀ nl : NumLit, nl.wfB = true → SegAt data pos nl.render →
      numDelim data (pos + nl.render.length) = true →
      Parser.parseNumber (Parser.mk data pos) =
        (some nl.render, Parser.mk data (pos + nl.render.length))) ∧
    (∀ (tok : List Nat) (q : Parser),
      Parser.parseNumber (Parser.mk data pos) = (some tok, q) →
      ∃ nl : NumLit, nl.wfB = true ∧ SegAt data pos nl.render ∧
        tok = nl.render ∧ q = Parser.mk data (pos + nl.render.length)) := by
  constructor
  · intro nl hwf hseg hdelim
    exact parseNumber_render data pos nl hwf hseg hdelim
  · intro tok q h
    obtain ⟨nl, hwf, hseg, hq, htok⟩ := parseNumber_chars data pos tok q h
    exact ⟨nl, hwf, hseg, htok, hq⟩

theorem parseNumber_lenient_grammar_witness :
    Parser.parseNumber (Parser.mk [48, 49, 50, 51] 0) =
      (some (NumLit.mk false [48, 49, 50, 51] none none).render,
       Parser.mk [48, 49, 50, 51]
         (0 + (NumLit.mk false [48, 49, 50, 51] none none).render.length)) :=
  (parseNumber_lenient_grammar [48, 49, 50, 51] 0).1
    (NumLit.mk false [48, 49, 50, 51] none none) (by decide) (by decide) (by decide)

/-! ## Cursor monotonicity (C9) -/

theorem skipWsAux_mono (fuel : Nat) : ∀ p : Parser,
    p.pos ≤ (skipWsAux fuel p).pos ∧ (skipWsAux fuel p).data = p.data := by
  induction fuel with
  | zero => exact fun p => ⟨le_refl _, rfl⟩
  | succ f ih =>
    intro p
    unfold skipWsAux
    split
    · split
      · have h := ih { p with pos := p.pos + 1 }
        exact ⟨le_trans (Nat.le_succ _) h.1, h.2⟩
      · exact ⟨le_refl _, rfl⟩
    · exact ⟨le_refl _, rfl⟩

theorem skipWhitespace_mono (p : Parser) :
    p.pos ≤ p.skipWhitespace.pos ∧ p.skipWhitespace.data = p.data :=
  skipWsAux_mono _ p

theorem parseStrAux_mono (fuel : Nat) : ∀ (start : Nat) (p : Parser),
    p.pos ≤ (parseStrAux fuel start p).2.pos ∧ (parseStrAux fuel start p).2.data = p.data := by
  induction fuel with
  | zero => exact fun start p => ⟨le_refl _, rfl⟩
  | succ f ih =>
    intro start p
    unfold parseStrAux
    split
    · split
      · have h := ih start { p with pos := p.pos + 2 }
        exact ⟨le_trans (by simp) h.1, h.2⟩
      · split
        · exact ⟨Nat.le_succ _, rfl⟩
        · have h := ih start { p with pos := p.pos + 1 }
          exact ⟨le_trans (Nat.le_succ _) h.1, h.2⟩
    · exact ⟨le_refl _, rfl⟩

theorem parseString_mono (p : Parser) :
    p.pos ≤ (p.parseString).2.pos ∧ (p.parseString).2.data = p.data := by
  unfold Parser.parseString
  split
  · split
    · have h := parseStrAux_mono (p.data.length - p.pos) p.pos { p with pos := p.pos + 1 }
      exact ⟨le_trans (Nat.le_succ _) h.1, h.2⟩
    · exact ⟨le_refl _, rfl⟩
  · exact ⟨le_refl _, rfl⟩

theorem skipDigitsAux_mono (fuel : Nat) : ∀ p : Parser,
    p.pos ≤ (skipDigitsAux fuel p).pos ∧ (skipDigitsAux fuel p).data = p.data := by
  induction fuel with
  | zero => exact fun p => ⟨le_refl _, rfl⟩
  | succ f ih =>
    intro p
    unfold skipDigitsAux
    split
    · split
      · have h := ih { p with pos := p.pos + 1 }
        exact ⟨le_trans (Nat.le_succ _) h.1, h.2⟩
      · exact ⟨le_refl _, rfl⟩
    · exact ⟨le_refl _, rfl⟩

theorem skipDigits_mono (p : Parser) :
    p.pos ≤ p.skipDigits.pos ∧ p.skipDigits.data = p.data :=
  skipDigitsAux_mono _ p

theorem expTail_mono (p : Parser) (start : Nat) :
    p.pos ≤ (p.expTail start).2.pos ∧ (p.expTail start).2.data = p.data := by
  simp only [Parser.expTail]
  split
  · split
    all_goals split
    all_goals
      first
        | exact ⟨le_refl _, rfl⟩
        | exact ⟨by dsimp only; omega, rfl⟩
        | exact ⟨le_trans (by dsimp only; omega) (skipDigits_mono _).1, (skipDigits_mono _).2⟩
  · exact ⟨le_refl _, rfl⟩

theorem numTail_mono (p : Parser) (start : Nat) :
    p.pos ≤ (p.numTail start).2.pos ∧ (p.numTail start).2.data = p.data := by
  simp only [Parser.numTail]
  split
  · split
    · exact ⟨le_trans (by dsimp only; omega)
        (le_trans (skipDigits_mono _).1 (expTail_mono _ _).1),
        ((expTail_mono _ _).2).trans (skipDigits_mono _).2⟩
    · exact ⟨by dsimp only; omega, rfl⟩
  · exact expTail_mono p start

theorem parseNumber_mono (p : Parser) :
    p.pos ≤ (p.parseNumber).2.pos ∧ (p.parseNumber).2.data = p.data := by
  simp only [Parser.parseNumber]
  split
  all_goals split
  all_goals
    first
      | exact ⟨le_refl _, rfl⟩
      | exact ⟨by dsimp only; omega, rfl⟩
      | exact ⟨le_trans (by dsimp only; omega)
          (le_trans (skipDigits_mono _).1 (numTail_mono _ _).1),
          ((numTail_mono _ _).2).trans (skipDigits_mono _).2⟩

theorem matchLiteral_mono (p : Parser) (lit : List Nat) :
    p.pos ≤ (p.matchLiteral lit).2.pos ∧ (p.matchLiteral lit).2.data = p.data := by
  unfold Parser.matchLiteral
  split
  · exact ⟨le_refl _, rfl⟩
  · split
    · exact ⟨Nat.le_add_right _ _, rfl⟩
    · exact ⟨le_refl _, rfl⟩

theorem skipAll_mono (fuel : Nat) :
    (∀ p : Parser,
      p.pos ≤ (skipValueAux fuel p).2.pos ∧ (skipValueAux fuel p).2.data = p.data) ∧
    (∀ p : Parser,
      p.pos ≤ (skipObjLoop fuel p).2.pos ∧ (skipObjLoop fuel p).2.data = p.data) ∧
    (∀ p : Parser,
      p.pos ≤ (skipArrLoop fuel p).2.pos ∧ (skipArrLoop fuel p).2.data = p.data) := by
  induction fuel with
  | zero =>
    exact ⟨fun p => ⟨le_refl _, rfl⟩, fun p => ⟨le_refl _, rfl⟩, fun p => ⟨le_refl _, rfl⟩⟩
  | succ f ih =>
    obtain ⟨ihv, iho, iha⟩ := ih
    refine ⟨fun p0 => ?_, fun p0 => ?_, fun p0 => ?_⟩
    · have hw := skipWhitespace_mono p0
      simp only [skipValueAux]
      split
      · split
        · exact ⟨le_trans (le_trans hw.1 (by dsimp only; omega)) (iho _).1,
            ((iho _).2).trans hw.2⟩
        · split
          · exact ⟨le_trans (le_trans hw.1 (by dsimp only; omega)) (iha _).1,
              ((iha _).2).trans hw.2⟩
          · split
            · rcases hps : (p0.skipWhitespace).parseString with ⟨otok, q⟩
              have hp := parseString_mono p0.skipWhitespace
              rw [hps] at hp
              cases otok <;> exact ⟨le_trans hw.1 hp.1, hp.2.trans hw.2⟩
            · split
              · exact ⟨le_trans hw.1 (matchLiteral_mono _ _).1,
                  ((matchLiteral_mono _ _).2).trans hw.2⟩
              · split
                · exact ⟨le_trans hw.1 (matchLiteral_mono _ _).1,
                    ((matchLiteral_mono _ _).2).trans hw.2⟩
                · split
                  · exact ⟨le_trans hw.1 (matchLiteral_mono _ _).1,
                      ((matchLiteral_mono _ _).2).trans hw.2⟩
                  · split
                    · rcases hpn : (p0.skipWhitespace).parseNumber with ⟨otok, q⟩
                      have hp := parseNumber_mono p0.skipWhitespace
                      rw [hpn] at hp
                      cases otok <;> exact ⟨le_trans hw.1 hp.1, hp.2.trans hw.2⟩
                    · exact ⟨hw.1, hw.2⟩
      · exact ⟨hw.1, hw.2⟩
    · have hw := skipWhitespace_mono p0
      simp only [skipObjLoop]
      split
      · split
        · exact ⟨le_trans hw.1 (by dsimp only; omega), hw.2⟩
        · split
          · exact ⟨le_trans (le_trans hw.1 (by dsimp only; omega)) (iho _).1,
              ((iho _).2).trans hw.2⟩
          · rcases hps : (p0.skipWhitespace).parseString with ⟨otok, q0⟩
            have hp := parseString_mono p0.skipWhitespace
            rw [hps] at hp
            cases otok with
            | none => exact ⟨le_trans hw.1 hp.1, hp.2.trans hw.2⟩
            | some tok =>
              have hw2 := skipWhitespace_mono q0
              dsimp only
              split
              · split
                · rcases hsv : skipValueAux f
                      { q0.skipWhitespace with pos := q0.skipWhitespace.pos + 1 } with ⟨ok, r⟩
                  have hv := ihv { q0.skipWhitespace with pos := q0.skipWhitespace.pos + 1 }
                  rw [hsv] at hv
                  have hchain : p0.pos ≤ r.pos := by
                    have h1 := hw.1
                    have h2 := hp.1
                    have h3 := hw2.1
                    have h4 := hv.1
                    dsimp only at h2 h4
                    omega
                  have hdchain : r.data = p0.data := by
                    have h4 := hv.2
                    dsimp only at h4
                    rw [h4, hw2.2]
                    have h2 := hp.2
                    dsimp only at h2
                    rw [h2, hw.2]
                  cases ok
                  · exact ⟨hchain, hdchain⟩
                  · exact ⟨le_trans hchain (iho r).1, ((iho r).2).trans hdchain⟩
                · exact ⟨le_trans (le_trans hw.1 hp.1) hw2.1, hw2.2.trans (hp.2.trans hw.2)⟩
              · exact ⟨le_trans (le_trans hw.1 hp.1) hw2.1, hw2.2.trans (hp.2.trans hw.2)⟩
      · exact ⟨hw.1, hw.2⟩
    · have hw := skipWhitespace_mono p0
      simp only [skipArrLoop]
      split
      · split
        · exact ⟨le_trans hw.1 (by dsimp only; omega), hw.2⟩
        · split
          · exact ⟨le_trans (le_trans hw.1 (by dsimp only; omega)) (iha _).1,
              ((iha _).2).trans hw.2⟩
          · rcases hsv : skipValueAux f p0.skipWhitespace with ⟨ok, r⟩
            have hv := ihv p0.skipWhitespace
            rw [hsv] at hv
            cases ok
            · exact ⟨le_trans hw.1 hv.1, hv.2.trans hw.2⟩
            · exact ⟨le_trans (le_trans hw.1 hv.1) (iha r).1,
                ((iha r).2).trans (hv.2.trans hw.2)⟩
      · exact ⟨hw.1, hw.2⟩

theorem skipValue_mono (p : Parser) :
    p.pos ≤ (skipValue p).2.pos ∧ (skipValue p).2.data = p.data :=
  (skipAll_mono (2 * p.data.length + 2)).1 p

theorem extractStrAux_mono (fuel : Nat) : ∀ (start : Nat) (p : Parser), start ≤ p.pos →
    start ≤ (extractStrAux fuel start p).2.pos ∧
    (extractStrAux fuel start p).2.data = p.data := by
  induction fuel with
  | zero => exact fun start p h => ⟨h, rfl⟩
  | succ f ih =>
    intro start p h
    unfold extractStrAux
    split
    · split
      · exact ⟨(parseString_mono (Parser.mk p.data start)).1,
          (parseString_mono (Parser.mk p.data start)).2⟩
      · split
        · exact ⟨by dsimp only; omega, rfl⟩
        · have hr := ih start { p with pos := p.pos + 1 } (by dsimp only; omega)
          exact ⟨hr.1, hr.2⟩
    · exact ⟨le_refl _, rfl⟩

theorem ExtractString_mono (p : Parser) :
    p.pos ≤ (p.ExtractString).2.pos ∧ (p.ExtractString).2.data = p.data := by
  unfold Parser.ExtractString
  split
  · split
    · have h := extractStrAux_mono (p.data.length - p.pos) p.pos { p with pos := p.pos + 1 }
        (by dsimp only; omega)
      exact ⟨h.1, h.2⟩
    · exact ⟨le_refl _, rfl⟩
  · exact ⟨le_refl _, rfl⟩

theorem ExtractNumber_mono (pf : List Nat → Bool) (p : Parser) :
    p.pos ≤ (p.ExtractNumber pf).2.pos ∧ (p.ExtractNumber pf).2.data = p.data := by
  unfold Parser.ExtractNumber
  rcases hpn : p.parseNumber with ⟨otok, q⟩
  have h := parseNumber_mono p
  rw [hpn] at h
  cases otok <;> exact ⟨h.1, h.2⟩

theorem ExtractBool_mono (p : Parser) :
    p.pos ≤ (p.ExtractBool).2.pos ∧ (p.ExtractBool).2.data = p.data := by
  have hw := skipWhitespace_mono p
  simp only [Parser.ExtractBool]
  split
  · split
    · rcases hm : (p.skipWhitespace).matchLiteral litTrue with ⟨ok, q⟩
      have h := matchLiteral_mono p.skipWhitespace litTrue
      rw [hm] at h
      cases ok <;> exact ⟨le_trans hw.1 h.1, h.2.trans hw.2⟩
    · split
      · rcases hm : (p.skipWhitespace).matchLiteral litFalse with ⟨ok, q⟩
        have h := matchLiteral_mono p.skipWhitespace litFalse
        rw [hm] at h
        cases ok <;> exact ⟨le_trans hw.1 h.1, h.2.trans hw.2⟩
      · exact ⟨hw.1, hw.2⟩
  · exact ⟨hw.1, hw.2⟩

/-- Claim C9 (confirmed): within a single parse, every modelled Parser
operation leaves the input slice untouched and the cursor offset greater
than or equal to its value before the call, so the offset is
monotonically non-decreasing; the Parser state is nothing but the input
slice and the offset (the `Parser` structure, modelled from the spec
because the struct declaration itself is not under src/).  skipValue is
taken at its Go-faithful fuel, and the ExtractNumber clause holds for
every possible strconv.ParseFloat behavior pf. -/
theorem parser_cursor_monotone (p : Parser) (lit : List Nat) (pf : List Nat → Bool) :
    (p.pos ≤ p.skipWhitespace.pos ∧ p.skipWhitespace.data = p.data) ∧
    (p.pos ≤ (p.parseString).2.pos ∧ (p.parseString).2.data = p.data) ∧
    (p.pos ≤ (p.parseNumber).2.pos ∧ (p.parseNumber).2.data = p.data) ∧
    (p.pos ≤ (p.matchLiteral lit).2.pos ∧ (p.matchLiteral lit).2.data = p.data) ∧
    (p.pos ≤ (skipValue p).2.pos ∧ (skipValue p).2.data = p.data) ∧
    (p.pos ≤ (p.ExtractString).2.pos ∧ (p.ExtractString).2.data = p.data) ∧
    (p.pos ≤ (p.ExtractNumber pf).2.pos ∧ (p.ExtractNumber pf).2.data = p.data) ∧
    (p.pos ≤ (p.ExtractBool).2.pos ∧ (p.ExtractBool).2.data = p.data) :=
  ⟨skipWhitespace_mono p, parseString_mono p, parseNumber_mono p, matchLiteral_mono p lit,
    skipValue_mono p, ExtractString_mono p, ExtractNumber_mono pf p, ExtractBool_mono p⟩

/-! ## Well-formed value skipping (C8) -/

theorem strBody_cons (c c2 : Nat) (rest : List Nat) (hne : c ≠ 92) :
    strBody (c :: c2 :: rest) = (decide (¬ (c = 34 ∨ c = 92)) && strBody (c2 :: rest)) := by
  rw [strBody.eq_def]
  split
  · next heq => exact absurd heq (by simp)
  · next heq =>
    injection heq with h1 h2
    exact absurd h1 hne
  · next hdiff heq =>
    injection heq with h1 h2
    subst h1
    rw [← h2]

theorem strBody_cons_ne (c : Nat) (rest : List Nat) (hne : c ≠ 92)
    (h : strBody (c :: rest) = true) : c ≠ 34 ∧ strBody rest = true := by
  rcases rest with _ | ⟨c2, rest⟩
  · simp only [strBody, hne, Bool.and_eq_true, decide_eq_true_eq] at h
    refine ⟨?_, rfl⟩
    intro hc
    exact h.1 (Or.inl hc)
  · rw [strBody_cons c c2 rest hne] at h
    simp only [Bool.and_eq_true, decide_eq_true_eq] at h
    exact ⟨fun hc => h.1 (Or.inl hc), h.2⟩

theorem skipWs_nop_at (data : List Nat) (pos c : Nat) (hb : data[pos]? = some c)
    (hws : isWs c = false) :
    Parser.skipWhitespace (Parser.mk data pos) = Parser.mk data pos := by
  apply skipWhitespace_nop
  intro c2 hc2
  dsimp only at hc2
  rw [hb] at hc2
  injection hc2 with hc2
  subst hc2
  exact hws

theorem numDelim_of_some (data : List Nat) (i c : Nat) (h : data[i]? = some c)
    (hc : c = 44 ∨ c = 93 ∨ c = 125) : numDelim data i = true := by
  unfold numDelim
  rw [h]
  rcases hc with hc | hc | hc <;> subst hc <;> decide

theorem matchLiteral_run (data lit : List Nat) (pos : Nat) (hne : lit ≠ [])
    (hseg : SegAt data pos lit) :
    Parser.matchLiteral (Parser.mk data pos) lit = (true, Parser.mk data (pos + lit.length)) := by
  have hle := segAt_length_le data lit pos hseg
  have hlen : 1 ≤ lit.length := by
    rcases lit with _ | ⟨c, cs⟩
    · exact absurd rfl hne
    · simp
  unfold Parser.matchLiteral
  dsimp only
  rw [if_neg (show ¬(data.length < pos + lit.length) by omega),
    if_pos (show (data.drop pos).take lit.length = lit from hseg)]

theorem parseStrAux_run : ∀ (fuel : Nat) (body data : List Nat) (start i : Nat),
    strBody body = true → SegAt data i (body ++ [34]) → body.length + 1 ≤ fuel →
    ∃ tok, parseStrAux fuel start (Parser.mk data i) =
      (some tok, Parser.mk data (i + body.length + 1)) := by
  intro fuel
  induction fuel with
  | zero => intro body data start i _ _ hf; omega
  | succ f ih =>
    intro body data start i hwf hseg hf
    rcases body with _ | ⟨c, rest⟩
    · rw [List.nil_append] at hseg
      obtain ⟨hq, -⟩ := (segAt_cons data i 34 []).1 hseg
      obtain ⟨hlt, hv⟩ := (List.getElem?_eq_some).1 hq
      refine ⟨(data.take (i + 1 - 1)).drop (start + 1), ?_⟩
      unfold parseStrAux
      dsimp only
      rw [dif_pos hlt, if_neg (show ¬(data[i] = 92) by rw [hv]; decide),
        if_pos (show data[i] = 34 from hv)]
      simp
    · rw [List.cons_append] at hseg
      obtain ⟨hci, hseg1⟩ := (segAt_cons data i c _).1 hseg
      obtain ⟨hlt, hv⟩ := (List.getElem?_eq_some).1 hci
      by_cases hc92 : c = 92
      · subst hc92
        rcases rest with _ | ⟨c2, rest2⟩
        · exact absurd hwf (by decide)
        · have hwf2 : strBody rest2 = true := by rw [strBody] at hwf; exact hwf
          rw [List.cons_append] at hseg1
          obtain ⟨hc2i, hseg2⟩ := (segAt_cons data (i + 1) c2 _).1 hseg1
          have harith1 : i + 1 + 1 = i + 2 := by omega
          rw [harith1] at hseg2
          obtain ⟨tok, htok⟩ := ih rest2 data start (i + 2) hwf2 hseg2
            (by simp only [List.length_cons] at hf; omega)
          refine ⟨tok, ?_⟩
          unfold parseStrAux
          dsimp only
          rw [dif_pos hlt, if_pos (show data[i] = 92 from hv)]
          have harith : i + (92 :: c2 :: rest2).length + 1 = i + 2 + rest2.length + 1 := by
            simp only [List.length_cons]
            omega
          rw [harith]
          exact htok
      · obtain ⟨hc34, hwf2⟩ := strBody_cons_ne c rest hc92 hwf
        obtain ⟨tok, htok⟩ := ih rest data start (i + 1) hwf2 hseg1
          (by simp only [List.length_cons] at hf; omega)
        refine ⟨tok, ?_⟩
        unfold parseStrAux
        dsimp only
        rw [dif_pos hlt, if_neg (show ¬(data[i] = 92) by rw [hv]; exact hc92),
          if_neg (show ¬(data[i] = 34) by rw [hv]; exact hc34)]
        have harith : i + (c :: rest).length + 1 = i + 1 + rest.length + 1 := by
          simp only [List.length_cons]
          omega
        rw [harith]
        exact htok

theorem parseString_run (data body : List Nat) (pos : Nat)
    (hwf : strBody body = true) (hseg : SegAt data pos (34 :: (body ++ [34]))) :
    ∃ tok, Parser.parseString (Parser.mk data pos) =
      (some tok, Parser.mk data (pos + body.length + 2)) := by
  obtain ⟨hq, hseg1⟩ := (segAt_cons data pos 34 _).1 hseg
  obtain ⟨hlt, hv⟩ := (List.getElem?_eq_some).1 hq
  have hfull := segAt_length_le data _ pos hseg
  simp only [List.length_cons, List.length_append, List.length_nil] at hfull
  obtain ⟨tok, htok⟩ := parseStrAux_run (data.length - pos) body data pos (pos + 1)
    hwf hseg1 (by omega)
  refine ⟨tok, ?_⟩
  unfold Parser.parseString
  dsimp only
  rw [dif_pos hlt, if_pos (show data[pos] = 34 from hv)]
  have harith : pos + body.length + 2 = pos + 1 + body.length + 1 := by omega
  rw [harith]
  exact htok

theorem render_pos (v : JVal) (hwf : JVal.wf v = true) : 1 ≤ (JVal.render v).length := by
  cases v with
  | jnull => simp [JVal.render, litNull]
  | jtrue => simp [JVal.render, litTrue]
  | jfalse => simp [JVal.render, litFalse]
  | jnum nl =>
    simp only [JVal.wf] at hwf
    have h1 : nl.intDigits ≠ [] := by
      unfold NumLit.wfB at hwf
      simp only [Bool.and_eq_true, decide_eq_true_eq] at hwf
      exact hwf.1.1.1
    have h2 : 1 ≤ nl.intDigits.length := by
      rcases hh : nl.intDigits with _ | ⟨d, ds⟩
      · exact absurd hh h1
      · simp
    simp only [JVal.render, NumLit.render, List.length_append]
    omega
  | jstr body => simp [JVal.render]
  | jarr es => simp [JVal.render]
  | jobj fs => simp [JVal.render]

theorem render_head_ok (v : JVal) (hwf : JVal.wf v = true) :
    ∃ c tl, JVal.render v = c :: tl ∧ isWs c = false ∧ c ≠ 93 ∧ c ≠ 44 ∧ c ≠ 125 := by
  cases v with
  | jnull =>
    exact ⟨110, [117, 108, 108], by simp [JVal.render, litNull], by decide, by decide,
      by decide, by decide⟩
  | jtrue =>
    exact ⟨116, [114, 117, 101], by simp [JVal.render, litTrue], by decide, by decide,
      by decide, by decide⟩
  | jfalse =>
    exact ⟨102, [97, 108, 115, 101], by simp [JVal.render, litFalse], by decide, by decide,
      by decide, by decide⟩
  | jnum nl =>
    simp only [JVal.wf] at hwf
    have hI : nl.intDigits ≠ [] ∧ allDigits nl.intDigits = true := by
      unfold NumLit.wfB at hwf
      simp only [Bool.and_eq_true, decide_eq_true_eq] at hwf
      exact ⟨hwf.1.1.1, hwf.1.1.2⟩
    cases hneg : nl.neg with
    | true =>
      refine ⟨45, nl.intDigits ++ (fracRender nl.frac ++ expRender nl.exps), ?_, by decide,
        by decide, by decide, by decide⟩
      simp [JVal.render, NumLit.render, hneg, List.append_assoc]
    | false =>
      rcases hh : nl.intDigits with _ | ⟨d, ds⟩
      · exact absurd hh hI.1
      · have hd : isDigit d = true := by
          have h2 := hI.2
          rw [hh] at h2
          simp only [allDigits, List.all_cons, Bool.and_eq_true] at h2
          exact h2.1
        have hd2 : 48 ≤ d ∧ d ≤ 57 := by simpa [isDigit] using hd
        refine ⟨d, ds ++ (fracRender nl.frac ++ expRender nl.exps), ?_, ?_, ?_, ?_, ?_⟩
        · simp [JVal.render, NumLit.render, hneg, hh, List.append_assoc]
        · simp only [isWs]
          exact decide_eq_false (by omega)
        · omega
        · omega
        · omega
  | jstr body =>
    exact ⟨34, body ++ [34], by simp [JVal.render], by decide, by decide, by decide, by decide⟩
  | jarr es =>
    exact ⟨91, renderElems es ++ [93], by simp [JVal.render], by decide, by decide,
      by decide, by decide⟩
  | jobj fs =>
    exact ⟨123, renderFields fs ++ [125], by simp [JVal.render], by decide, by decide,
      by decide, by decide⟩

theorem skipAll_run : ∀ fuel : Nat,
    SVal fuel ∧ SArrE fuel ∧ SArrR fuel ∧ SObjE fuel ∧ SObjR fuel := by
  intro fuel
  induction fuel with
  | zero =>
    refine ⟨?_, ?_, ?_, ?_, ?_⟩
    · intro v data pos hwf hseg hdelim hf
      have := render_pos v hwf
      omega
    · intro es data pos hwf hseg hf
      omega
    · intro es data pos hwf hseg hf
      omega
    · intro fs data pos hwf hseg hf
      omega
    · intro fs data pos hwf hseg hf
      omega
  | succ f ih =>
    obtain ⟨ihV, ihAE, ihAR, ihOE, ihOR⟩ := ih
    refine ⟨?_, ?_, ?_, ?_, ?_⟩
    · -- values
      intro v data pos hwf hseg hdelim hf
      cases v with
      | jnull =>
        have hsegn : SegAt data pos litNull := by simpa [JVal.render] using hseg
        have hb : data[pos]? = some 110 := ((segAt_cons data pos 110 [117, 108, 108]).1 hsegn).1
        obtain ⟨hlt, hv⟩ := (List.getElem?_eq_some).1 hb
        have hws := skipWs_nop_at data pos 110 hb (by decide)
        simp only [skipValueAux]
        rw [hws]
        dsimp only
        rw [dif_pos hlt,
          if_neg (show ¬(data[pos] = 123) by rw [hv]; decide),
          if_neg (show ¬(data[pos] = 91) by rw [hv]; decide),
          if_neg (show ¬(data[pos] = 34) by rw [hv]; decide),
          if_neg (show ¬(data[pos] = 116) by rw [hv]; decide),
          if_neg (show ¬(data[pos] = 102) by rw [hv]; decide),
          if_pos (show data[pos] = 110 from hv)]
        rw [show pos + (JVal.render JVal.jnull).length = pos + litNull.length from by
          simp [JVal.render]]
        exact matchLiteral_run data litNull pos (by decide) hsegn
      | jtrue =>
        have hsegn : SegAt data pos litTrue := by simpa [JVal.render] using hseg
        have hb : data[pos]? = some 116 := ((segAt_cons data pos 116 [114, 117, 101]).1 hsegn).1
        obtain ⟨hlt, hv⟩ := (List.getElem?_eq_some).1 hb
        have hws := skipWs_nop_at data pos 116 hb (by decide)
        simp only [skipValueAux]
        rw [hws]
        dsimp only
        rw [dif_pos hlt,
          if_neg (show ¬(data[pos] = 123) by rw [hv]; decide),
          if_neg (show ¬(data[pos] = 91) by rw [hv]; decide),
          if_neg (show ¬(data[pos] = 34) by rw [hv]; decide),
          if_pos (show data[pos] = 116 from hv)]
        rw [show pos + (JVal.render JVal.jtrue).length = pos + litTrue.length from by
          simp [JVal.render]]
        exact matchLiteral_run data litTrue pos (by decide) hsegn
      | jfalse =>
        have hsegn : SegAt data pos litFalse := by simpa [JVal.render] using hseg
        have hb : data[pos]? = some 102 :=
          ((segAt_cons data pos 102 [97, 108, 115, 101]).1 hsegn).1
        obtain ⟨hlt, hv⟩ := (List.getElem?_eq_some).1 hb
        have hws := skipWs_nop_at data pos 102 hb (by decide)
        simp only [skipValueAux]
        rw [hws]
        dsimp only
        rw [dif_pos hlt,
          if_neg (show ¬(data[pos] = 123) by rw [hv]; decide),
          if_neg (show ¬(data[pos] = 91) by rw [hv]; decide),
          if_neg (show ¬(data[pos] = 34) by rw [hv]; decide),
          if_neg (show ¬(data[pos] = 116) by rw [hv]; decide),
          if_pos (show data[pos] = 102 from hv)]
        rw [show pos + (JVal.render JVal.jfalse).length = pos + litFalse.length from by
          simp [JVal.render]]
        exact matchLiteral_run data litFalse pos (by decide) hsegn
      | jnum nl =>
        have hwfn : nl.wfB = true := by simpa [JVal.wf] using hwf
        have hsegn : SegAt data pos nl.render := by simpa [JVal.render] using hseg
        have hdel : numDelim data (pos + nl.render.length) = true := by
          have h0 := hdelim nl rfl
          simpa [JVal.render] using h0
        have hp := parseNumber_render data pos nl hwfn hsegn hdel
        have hI : nl.intDigits ≠ [] ∧ allDigits nl.intDigits = true := by
          unfold NumLit.wfB at hwfn
          simp only [Bool.and_eq_true, decide_eq_true_eq] at hwfn
          exact ⟨hwfn.1.1.1, hwfn.1.1.2⟩
        obtain ⟨c, tl, hr, hc⟩ :
            ∃ c tl, nl.render = c :: tl ∧ (c = 45 ∨ (48 ≤ c ∧ c ≤ 57)) := by
          cases hneg : nl.neg with
          | true =>
            exact ⟨45, nl.intDigits ++ (fracRender nl.frac ++ expRender nl.exps),
              by simp [NumLit.render, hneg, List.append_assoc], Or.inl rfl⟩
          | false =>
            rcases hh : nl.intDigits with _ | ⟨d, ds⟩
            · exact absurd hh hI.1
            · have hd : isDigit d = true := by
                have h2 := hI.2
                rw [hh] at h2
                simp only [allDigits, List.all_cons, Bool.and_eq_true] at h2
                exact h2.1
              exact ⟨d, ds ++ (fracRender nl.frac ++ expRender nl.exps),
                by simp [NumLit.render, hneg, hh, List.append_assoc],
                Or.inr (by simpa [isDigit] using hd)⟩
        have hb : data[pos]? = some c := by
          have h1 := hsegn
          rw [hr] at h1
          exact ((segAt_cons data pos c tl).1 h1).1
        obtain ⟨hlt, hv⟩ := (List.getElem?_eq_some).1 hb
        have hcne : c ≠ 123 ∧ c ≠ 91 ∧ c ≠ 34 ∧ c ≠ 116 ∧ c ≠ 102 ∧ c ≠ 110 := by
          rcases hc with hc | hc
          · subst hc
            exact ⟨by decide, by decide, by decide, by decide, by decide, by decide⟩
          · exact ⟨by omega, by omega, by omega, by omega, by omega, by omega⟩
        have hws := skipWs_nop_at data pos c hb (by
          rcases hc with hc | hc
          · subst hc; decide
          · simp only [isWs]
            exact decide_eq_false (by omega))
        simp only [skipValueAux]
        rw [hws]
        dsimp only
        rw [dif_pos hlt,
          if_neg (show ¬(data[pos] = 123) by rw [hv]; exact hcne.1),
          if_neg (show ¬(data[pos] = 91) by rw [hv]; exact hcne.2.1),
          if_neg (show ¬(data[pos] = 34) by rw [hv]; exact hcne.2.2.1),
          if_neg (show ¬(data[pos] = 116) by rw [hv]; exact hcne.2.2.2.1),
          if_neg (show ¬(data[pos] = 102) by rw [hv]; exact hcne.2.2.2.2.1),
          if_neg (show ¬(data[pos] = 110) by rw [hv]; exact hcne.2.2.2.2.2),
          if_pos (show (decide (data[pos] = 45) || isDigit data[pos]) = true by
            rw [hv]
            rcases hc with hc | hc
            · subst hc; decide
            · simp only [isDigit, Bool.or_eq_true, decide_eq_true_eq]
              exact Or.inr (by omega))]
        rw [hp]
        dsimp only
        rw [show pos + (JVal.render (JVal.jnum nl)).length = pos + nl.render.length from by
          simp [JVal.render]]
      | jstr body =>
        have hwfs : strBody body = true := by simpa [JVal.wf] using hwf
        have hsegn : SegAt data pos (34 :: (body ++ [34])) := by
          simpa [JVal.render] using hseg
        have hb : data[pos]? = some 34 := ((segAt_cons data pos 34 _).1 hsegn).1
        obtain ⟨hlt, hv⟩ := (List.getElem?_eq_some).1 hb
        have hws := skipWs_nop_at data pos 34 hb (by decide)
        obtain ⟨tok, htok⟩ := parseString_run data body pos hwfs hsegn
        simp only [skipValueAux]
        rw [hws]
        dsimp only
        rw [dif_pos hlt,
          if_neg (show ¬(data[pos] = 123) by rw [hv]; decide),
          if_neg (show ¬(data[pos] = 91) by rw [hv]; decide),
          if_pos (show data[pos] = 34 from hv)]
        rw [htok]
        dsimp only
        rw [show pos + (JVal.render (JVal.jstr body)).length = pos + body.length + 2 from by
          simp only [JVal.render, List.length_cons, List.length_append, List.length_nil]
          omega]
      | jarr es =>
        have hwfa : elemsWf es = true := by simpa [JVal.wf] using hwf
        have hlen : (JVal.render (JVal.jarr es)).length = (renderElems es).length + 2 := by
          simp only [JVal.render, List.length_cons, List.length_append, List.length_nil]
        rw [show JVal.render (JVal.jarr es) = 91 :: (renderElems es ++ [93]) from by
          simp [JVal.render]] at hseg
        obtain ⟨hb, htail⟩ := (segAt_cons data pos 91 _).1 hseg
        obtain ⟨hlt, hv⟩ := (List.getElem?_eq_some).1 hb
        have hws := skipWs_nop_at data pos 91 hb (by decide)
        have hloop := ihAE es data (pos + 1) hwfa htail (by rw [hlen] at hf; omega)
        simp only [skipValueAux]
        rw [hws]
        dsimp only
        rw [dif_pos hlt,
          if_neg (show ¬(data[pos] = 123) by rw [hv]; decide),
          if_pos (show data[pos] = 91 from hv)]
        rw [show pos + (JVal.render (JVal.jarr es)).length
            = pos + 1 + (renderElems es).length + 1 from by rw [hlen]; omega]
        exact hloop
      | jobj fs =>
        have hwfo : fieldsWf fs = true := by simpa [JVal.wf] using hwf
        have hlen : (JVal.render (JVal.jobj fs)).length = (renderFields fs).length + 2 := by
          simp only [JVal.render, List.length_cons, List.length_append, List.length_nil]
        rw [show JVal.render (JVal.jobj fs) = 123 :: (renderFields fs ++ [125]) from by
          simp [JVal.render]] at hseg
        obtain ⟨hb, htail⟩ := (segAt_cons data pos 123 _).1 hseg
        obtain ⟨hlt, hv⟩ := (List.getElem?_eq_some).1 hb
        have hws := skipWs_nop_at data pos 123 hb (by decide)
        have hloop := ihOE fs data (pos + 1) hwfo htail (by rw [hlen] at hf; omega)
        simp only [skipValueAux]
        rw [hws]
        dsimp only
        rw [dif_pos hlt, if_pos (show data[pos] = 123 from hv)]
        rw [show pos + (JVal.render (JVal.jobj fs)).length
            = pos + 1 + (renderFields fs).length + 1 from by rw [hlen]; omega]
        exact hloop
    · -- array loop, element-or-close
      intro es data pos hwf hseg hf
      rcases es with _ | ⟨v, vs⟩
      · simp only [renderElems, List.nil_append] at hseg
        have hb : data[pos]? = some 93 := ((segAt_cons data pos 93 []).1 hseg).1
        obtain ⟨hlt, hv⟩ := (List.getElem?_eq_some).1 hb
        have hws := skipWs_nop_at data pos 93 hb (by decide)
        simp only [skipArrLoop]
        rw [hws]
        dsimp only
        rw [dif_pos hlt, if_pos (show data[pos] = 93 from hv)]
        rw [show pos + (renderElems ([] : List JVal)).length + 1 = pos + 1 from by
          simp [renderElems]]
      · have hwf2 : JVal.wf v = true ∧ elemsWf vs = true := by
          simpa only [elemsWf, Bool.and_eq_true] using hwf
        have hlenE : (renderElems (v :: vs)).length
            = (JVal.render v).length + (renderRestElems vs).length := by
          simp only [renderElems, List.length_append]
        rw [show renderElems (v :: vs) ++ [93]
            = JVal.render v ++ (renderRestElems vs ++ [93]) from by
          simp only [renderElems, List.append_assoc]] at hseg
        obtain ⟨h1, h2⟩ := (segAt_append data (JVal.render v) _ pos).1 hseg
        obtain ⟨c, tl, hrv, hnws, hne93, hne44, hne125⟩ := render_head_ok v hwf2.1
        have hb : data[pos]? = some c := by
          have h1x := h1
          rw [hrv] at h1x
          exact ((segAt_cons data pos c tl).1 h1x).1
        obtain ⟨hlt, hv⟩ := (List.getElem?_eq_some).1 hb
        have hws := skipWs_nop_at data pos c hb hnws
        have hnext : numDelim data (pos + (JVal.render v).length) = true := by
          rcases vs with _ | ⟨w, ws⟩
          · simp only [renderRestElems, List.nil_append] at h2
            exact numDelim_of_some data _ 93 ((segAt_cons data _ 93 []).1 h2).1 (by tauto)
          · rw [show renderRestElems (w :: ws) ++ [93]
                = 44 :: ((JVal.render w ++ renderRestElems ws) ++ [93]) from by
              simp only [renderRestElems, List.cons_append]] at h2
            exact numDelim_of_some data _ 44 ((segAt_cons data _ 44 _).1 h2).1 (by tauto)
        rw [hlenE] at hf
        have hrp := render_pos v hwf2.1
        have hval := ihV v data pos hwf2.1 h1 (fun nl hv2 => hnext) (by omega)
        have hloop := ihAR vs data (pos + (JVal.render v).length) hwf2.2 h2 (by omega)
        simp only [skipArrLoop]
        rw [hws]
        dsimp only
        rw [dif_pos hlt,
          if_neg (show ¬(data[pos] = 93) by rw [hv]; exact hne93),
          if_neg (show ¬(data[pos] = 44) by rw [hv]; exact hne44)]
        rw [hval]
        dsimp only
        rw [show pos + (renderElems (v :: vs)).length + 1
            = pos + (JVal.render v).length + (renderRestElems vs).length + 1 from by
          rw [hlenE]; omega]
        exact hloop
    · -- array loop, comma-or-close
      intro es data pos hwf hseg hf
      rcases es with _ | ⟨v, vs⟩
      · simp only [renderRestElems, List.nil_append] at hseg
        have hb : data[pos]? = some 93 := ((segAt_cons data pos 93 []).1 hseg).1
        obtain ⟨hlt, hv⟩ := (List.getElem?_eq_some).1 hb
        have hws := skipWs_nop_at data pos 93 hb (by decide)
        simp only [skipArrLoop]
        rw [hws]
        dsimp only
        rw [dif_pos hlt, if_pos (show data[pos] = 93 from hv)]
        rw [show pos + (renderRestElems ([] : List JVal)).length + 1 = pos + 1 from by
          simp [renderRestElems]]
      · have hlenR : (renderRestElems (v :: vs)).length
            = 1 + (JVal.render v).length + (renderRestElems vs).length := by
          simp only [renderRestElems, List.length_cons, List.length_append]
          omega
        rw [show renderRestElems (v :: vs) ++ [93]
            = 44 :: ((JVal.render v ++ renderRestElems vs) ++ [93]) from by
          simp only [renderRestElems, List.cons_append]] at hseg
        obtain ⟨hb, htail⟩ := (segAt_cons data pos 44 _).1 hseg
        obtain ⟨hlt, hv⟩ := (List.getElem?_eq_some).1 hb
        have hws := skipWs_nop_at data pos 44 hb (by decide)
        have htailE : SegAt data (pos + 1) (renderElems (v :: vs) ++ [93]) := by
          rw [show renderElems (v :: vs) = JVal.render v ++ renderRestElems vs from by
            simp only [renderElems]]
          exact htail
        have hAE := ihAE (v :: vs) data (pos + 1) hwf htailE (by
          rw [hlenR] at hf
          have hq : (renderElems (v :: vs)).length
              = (JVal.render v).length + (renderRestElems vs).length := by
            simp only [renderElems, List.length_append]
          omega)
        simp only [skipArrLoop]
        rw [hws]
        dsimp only
        rw [dif_pos hlt,
          if_neg (show ¬(data[pos] = 93) by rw [hv]; decide),
          if_pos (show data[pos] = 44 from hv)]
        rw [show pos + (renderRestElems (v :: vs)).length + 1
            = pos + 1 + (renderElems (v :: vs)).length + 1 from by
          rw [hlenR]
          simp only [renderElems, List.length_append]
          omega]
        exact hAE
    · -- object loop, field-or-close
      intro fs data pos hwf hseg hf
      rcases fs with _ | ⟨⟨k, v⟩, fs2⟩
      · simp only [renderFields, List.nil_append] at hseg
        have hb : data[pos]? = some 125 := ((segAt_cons data pos 125 []).1 hseg).1
        obtain ⟨hlt, hv⟩ := (List.getElem?_eq_some).1 hb
        have hws := skipWs_nop_at data pos 125 hb (by decide)
        simp only [skipObjLoop]
        rw [hws]
        dsimp only
        rw [dif_pos hlt, if_pos (show data[pos] = 125 from hv)]
        rw [show pos + (renderFields ([] : List (List Nat × JVal))).length + 1 = pos + 1
          from by simp [renderFields]]
      · have hwf3 : (strBody k = true ∧ JVal.wf v = true) ∧ fieldsWf fs2 = true := by
          simpa only [fieldsWf, Bool.and_eq_true] using hwf
        rw [show renderFields ((k, v) :: fs2) ++ [125]
            = (34 :: (k ++ [34])) ++
              (58 :: (JVal.render v ++ (renderRestFields fs2 ++ [125]))) from by
          simp only [renderFields, renderField, List.append_assoc, List.cons_append,
            List.nil_append]] at hseg
        obtain ⟨hks, h2⟩ := (segAt_append data (34 :: (k ++ [34])) _ pos).1 hseg
        rw [show pos + (34 :: (k ++ [34])).length = pos + k.length + 2 from by
          simp only [List.length_cons, List.length_append, List.length_nil]
          omega] at h2
        obtain ⟨hcolon, h3⟩ := (segAt_cons data _ 58 _).1 h2
        obtain ⟨h4, h5⟩ := (segAt_append data (JVal.render v) _ _).1 h3
        have hb : data[pos]? = some 34 := ((segAt_cons data pos 34 _).1 hks).1
        obtain ⟨hlt, hv⟩ := (List.getElem?_eq_some).1 hb
        have hws := skipWs_nop_at data pos 34 hb (by decide)
        obtain ⟨tok, htok⟩ := parseString_run data k pos hwf3.1.1 hks
        obtain ⟨hlt2, hv2⟩ := (List.getElem?_eq_some).1 hcolon
        have hws2 := skipWs_nop_at data (pos + k.length + 2) 58 hcolon (by decide)
        have hnext : numDelim data (pos + k.length + 2 + 1 + (JVal.render v).length)
            = true := by
          rcases fs2 with _ | ⟨g, gs⟩
          · simp only [renderRestFields, List.nil_append] at h5
            exact numDelim_of_some data _ 125 ((segAt_cons data _ 125 []).1 h5).1 (by tauto)
          · rw [show renderRestFields (g :: gs) ++ [125]
                = 44 :: ((renderField g ++ renderRestFields gs) ++ [125]) from by
              simp only [renderRestFields, List.cons_append]] at h5
            exact numDelim_of_some data _ 44 ((segAt_cons data _ 44 _).1 h5).1 (by tauto)
        have hlenF : (renderFields ((k, v) :: fs2)).length
            = k.length + 3 + (JVal.render v).length + (renderRestFields fs2).length := by
          simp only [renderFields, renderField, List.length_append, List.length_cons,
            List.length_nil]
          omega
        rw [hlenF] at hf
        have hval := ihV v data (pos + k.length + 2 + 1) hwf3.1.2 h4 (fun nl hx => hnext)
          (by omega)
        have hloop := ihOR fs2 data (pos + k.length + 2 + 1 + (JVal.render v).length)
          hwf3.2 h5 (by omega)
        simp only [skipObjLoop]
        rw [hws]
        dsimp only
        rw [dif_pos hlt,
          if_neg (show ¬(data[pos] = 125) by rw [hv]; decide),
          if_neg (show ¬(data[pos] = 44) by rw [hv]; decide)]
        rw [htok]
        dsimp only
        rw [hws2]
        dsimp only
        rw [dif_pos hlt2, if_pos (show data[pos + k.length + 2] = 58 from hv2)]
        rw [hval]
        dsimp only
        rw [show pos + (renderFields ((k, v) :: fs2)).length + 1
            = pos + k.length + 2 + 1 + (JVal.render v).length
              + (renderRestFields fs2).length + 1 from by
          rw [hlenF]; omega]
        exact hloop
    · -- object loop, comma-or-close
      intro fs data pos hwf hseg hf
      rcases fs with _ | ⟨g, gs⟩
      · simp only [renderRestFields, List.nil_append] at hseg
        have hb : data[pos]? = some 125 := ((segAt_cons data pos 125 []).1 hseg).1
        obtain ⟨hlt, hv⟩ := (List.getElem?_eq_some).1 hb
        have hws := skipWs_nop_at data pos 125 hb (by decide)
        simp only [skipObjLoop]
        rw [hws]
        dsimp only
        rw [dif_pos hlt, if_pos (show data[pos] = 125 from hv)]
        rw [show pos + (renderRestFields ([] : List (List Nat × JVal))).length + 1 = pos + 1
          from by simp [renderRestFields]]
      · have hlenR : (renderRestFields (g :: gs)).length
            = 1 + (renderField g).length + (renderRestFields gs).length := by
          simp only [renderRestFields, List.length_cons, List.length_append]
          omega
        rw [show renderRestFields (g :: gs) ++ [125]
            = 44 :: ((renderField g ++ renderRestFields gs) ++ [125]) from by
          simp only [renderRestFields, List.cons_append]] at hseg
        obtain ⟨hb, htail⟩ := (segAt_cons data pos 44 _).1 hseg
        obtain ⟨hlt, hv⟩ := (List.getElem?_eq_some).1 hb
        have hws := skipWs_nop_at data pos 44 hb (by decide)
        have htailE : SegAt data (pos + 1) (renderFields (g :: gs) ++ [125]) := by
          rw [show renderFields (g :: gs) = renderField g ++ renderRestFields gs from by
            simp only [renderFields]]
          exact htail
        have hOE := ihOE (g :: gs) data (pos + 1) hwf htailE (by
          rw [hlenR] at hf
          have hq : (renderFields (g :: gs)).length
              = (renderField g).length + (renderRestFields gs).length := by
            simp only [renderFields, List.length_append]
          omega)
        simp only [skipObjLoop]
        rw [hws]
        dsimp only
        rw [dif_pos hlt,
          if_neg (show ¬(data[pos] = 125) by rw [hv]; decide),
          if_pos (show data[pos] = 44 from hv)]
        rw [show pos + (renderRestFields (g :: gs)).length + 1
            = pos + 1 + (renderFields (g :: gs)).length + 1 from by
          rw [hlenR]
          simp only [renderFields, List.length_append]
          omega]
        exact hOE

/-- Claim C8 (confirmed): for every well-formed JSON value at every nesting
depth, skipValue succeeds and leaves the parser cursor at exactly the first
byte after that value.  The value is any JVal shape (null, true, false,
number, string with escaped content, array, object, arbitrarily nested)
rendered at the start of the input; for a bare number value the byte
following the rendering must not extend the number token (any standard
JSON delimiter, whitespace, or end of input qualifies), which is the only
place a value's boundary depends on its context.  Within strings, a quote
preceded by an unconsumed backslash escape is string content (strBody
permits `92, 34` pairs inside the body, and the proof advances past both
bytes without closing the string). -/
theorem skipValue_wellformed (v : JVal) (data rest : List Nat)
    (hwf : JVal.wf v = true)
    (hdata : data = JVal.render v ++ rest)
    (hdelim : ∀ nl, v = JVal.jnum nl → numDelim data (JVal.render v).length = true) :
    skipValue (Parser.mk data 0) = (true, Parser.mk data (JVal.render v).length) := by
  have hseg : SegAt data 0 (JVal.render v) := by
    subst hdata
    unfold SegAt
    simp [List.take_left]
  have hfuel : (JVal.render v).length ≤ 2 * data.length + 2 := by
    subst hdata
    simp only [List.length_append]
    omega
  have h := (skipAll_run (2 * data.length + 2)).1 v data 0 hwf hseg
    (fun nl hv => by simpa using hdelim nl hv) hfuel
  unfold skipValue
  simpa using h

theorem skipValue_wellformed_witness :
    skipValue
      (Parser.mk [123, 34, 97, 34, 58, 91, 49, 48, 44, 116, 114, 117, 101, 93, 125, 88] 0) =
      (true, Parser.mk [123, 34, 97, 34, 58, 91, 49, 48, 44, 116, 114, 117, 101, 93, 125, 88]
        (JVal.render (JVal.jobj [([97],
          JVal.jarr [JVal.jnum (NumLit.mk false [49, 48] none none), JVal.jtrue])])).length) :=
  skipValue_wellformed
    (JVal.jobj [([97], JVal.jarr [JVal.jnum (NumLit.mk false [49, 48] none none), JVal.jtrue])])
    [123, 34, 97, 34, 58, 91, 49, 48, 44, 116, 114, 117, 101, 93, 125, 88] [88]
    (by simp [JVal.wf, elemsWf, fieldsWf, strBody, NumLit.wfB, allDigits, fracWfB, expWfB,
      isDigit])
    (by simp [JVal.render, renderFields, renderRestFields, renderField, renderElems,
      renderRestElems, NumLit.render, fracRender, expRender, litTrue])
    (fun nl h => JVal.noConfusion h)

/-- Claim C7 (code_bug): with the byte source "1 2 3" (bytes 49 32 50 32
51) — the concatenation of three whitespace-separated well-formed
top-level JSON values — the first two Decode calls read the raw values "1"
and "2", but the third call reads the two bytes "31" rather than "3":
after consuming "3" the buffer is exhausted, refillBuffer swallows io.EOF
and resets readPos to 0 without discarding consumed input, and the main
loop then re-reads the buffer from its start, appending the first
document's "1" to the token, which passes the isCompleteLiteral check at
the following space.  The decoder therefore cannot deliver the three
values in order.  Each chained state below is the exact decoder state the
previous call returned; fuel 64 strictly exceeds the steps of every call
shown, so the bound never binds. -/
theorem decoder_third_value_corrupted :
    DecodeRaw 64 (Dec.mk [49, 32, 50, 32, 51] 0 [] 0)
      = some ([49], Dec.mk [49, 32, 50, 32, 51] 5 [49, 32, 50, 32, 51] 1) ∧
    DecodeRaw 64 (Dec.mk [49, 32, 50, 32, 51] 5 [49, 32, 50, 32, 51] 1)
      = some ([50], Dec.mk [49, 32, 50, 32, 51] 5 [49, 32, 50, 32, 51] 3) ∧
    DecodeRaw 64 (Dec.mk [49, 32, 50, 32, 51] 5 [49, 32, 50, 32, 51] 3)
      = some ([51, 49], Dec.mk [49, 32, 50, 32, 51] 5 [49, 32, 50, 32, 51] 1) ∧
    ([51, 49] : List Nat) ≠ [51] := by
  refine ⟨by decide, by decide, by decide, by decide⟩

end ApexJSON
